import Mathlib

/-!
Verification of the ukr-map-backend ingestion/enrichment pipeline.

Shallow embedding of the TypeScript sources:
* `src/api/services/entity-resolution.service.ts` (name/place normalizer),
* `src/api/services/wikipedia.service.ts` (pipeline, persistence, retry client),
* `src/api/services/search.service.ts` (combined search, proposed edits),
* the `Person` entity (`generateSlug` hook).

Strings are modelled as Lean `String`/`List Char`; JavaScript `number` is
modelled as `Int` (counts/ids) or `Rat` (coordinates, ratings); JS
`null`/`undefined` are modelled with `Option`; JS truthiness is modelled
explicitly (`""`, `0`, `null` are falsy).  The relational store is a list
of `Person` records with a fresh-id counter; raw SQL used by the service
(`percent_rank`, PostGIS point updates) is embedded by its documented
semantics.  External HTTP services are parameters (response sequences,
geocoder functions, SPARQL outcomes).
-/

namespace UkrMap

/-! ## JavaScript string primitives

Models of the JS built-ins used by the service code: `toLowerCase`
(restricted to ASCII and the Cyrillic block used by the data), `trim`,
`trimStart`, the regex character classes `\s`, `\p{L}`, `\p{N}`, `\w`,
and `startsWith`. -/

/-- JS `\s` (whitespace) for the characters that can occur in the data:
space, tab, newline, carriage return, vertical tab, form feed, NBSP. -/
def jsIsSpace (c : Char) : Bool :=
  c = ' ' || c = '\t' || c = '\n' || c = '\r' ||
  c.toNat = 0x0B || c.toNat = 0x0C || c.toNat = 0xA0

/-- Unicode `\p{L}` restricted to ASCII letters, the Cyrillic block
U+0400–U+04FF (covers Ukrainian, including Ґґ) and the modifier-letter
apostrophe U+02BC. -/
def jsIsLetter (c : Char) : Bool :=
  c.isAlpha || (0x400 ≤ c.toNat && c.toNat ≤ 0x4FF) || c.toNat = 0x2BC

/-- Unicode `\p{N}` restricted to the decimal digits occurring in the data. -/
def jsIsNum (c : Char) : Bool := c.isDigit

/-- JS (non-Unicode) `\w`: ASCII letters, digits, underscore. -/
def jsIsWordChar (c : Char) : Bool := c.isAlphanum || c = '_'

/-- JS `String.prototype.toLowerCase`, restricted to ASCII plus the
Cyrillic block: Ѐ–Џ (U+0400–U+040F) map +0x50, А–Я (U+0410–U+042F) map
+0x20, Ґ (U+0490) maps to ґ (U+0491); everything else falls back to the
ASCII lowering. -/
def jsToLower (c : Char) : Char :=
  if 0x400 ≤ c.toNat ∧ c.toNat ≤ 0x40F then Char.ofNat (c.toNat + 0x50)
  else if 0x410 ≤ c.toNat ∧ c.toNat ≤ 0x42F then Char.ofNat (c.toNat + 0x20)
  else if c.toNat = 0x490 then Char.ofNat 0x491
  else c.toLower

/-- JS `trim` on a character list. -/
def jsTrim (l : List Char) : List Char :=
  ((l.dropWhile jsIsSpace).reverse.dropWhile jsIsSpace).reverse

/-- JS `trimStart` on a character list. -/
def jsTrimStart (l : List Char) : List Char := l.dropWhile jsIsSpace

/-- Truthiness of a JS string value (`null`/`undefined`/`""` are falsy). -/
def truthyStr : Option String → Bool
  | none => false
  | some s => !s.isEmpty

/-- Truthiness of a JS number value (`null`/`undefined`/`0` are falsy;
NaN does not occur in the embedded data). -/
def truthyNum : Option Rat → Bool
  | none => false
  | some q => q ≠ 0

/-- JS `a || b` on (possibly missing) string values. -/
def jsOrStr (a b : Option String) : Option String :=
  if truthyStr a then a else b

/-! ## EntityResolutionService — name/place normalizer

Embeds `entity-resolution.service.ts`.  The regex replacements are
implemented character by character with the exact semantics of the JS
patterns used by the source: whitespace-run and hyphen-run collapses,
non-greedy parenthetical removal, the polity-suffix alternation, the
all-digits test, the ISO year prefix and the standalone 4-digit year
with word boundaries. -/

/-- `replace(/\s+/g, '-')`: each maximal whitespace run becomes one
hyphen.  The run state is the `inRun` flag (true while inside a
whitespace run whose first character already emitted the hyphen). -/
def replaceSpaceRunsAux (inRun : Bool) : List Char → List Char
  | [] => []
  | c :: rest =>
    if jsIsSpace c then
      if inRun then replaceSpaceRunsAux true rest
      else '-' :: replaceSpaceRunsAux true rest
    else c :: replaceSpaceRunsAux false rest

def replaceSpaceRuns (l : List Char) : List Char := replaceSpaceRunsAux false l

/-- The hyphen-run collapse `replace` with pattern `-+`: each maximal
hyphen run becomes one hyphen (same run-state scheme). -/
def collapseHyphenRunsAux (inRun : Bool) : List Char → List Char
  | [] => []
  | c :: rest =>
    if c = '-' then
      if inRun then collapseHyphenRunsAux true rest
      else '-' :: collapseHyphenRunsAux true rest
    else c :: collapseHyphenRunsAux false rest

def collapseHyphenRuns (l : List Char) : List Char :=
  collapseHyphenRunsAux false l

/-- Characters kept by `replace(/[^\p{L}\p{N}\s-]/gu, '')`. -/
def slugKeep (c : Char) : Bool :=
  jsIsLetter c || jsIsNum c || jsIsSpace c || c = '-'

/-- `EntityResolutionService.toSlug`: lowercase, drop everything that is
not a letter/number/whitespace/hyphen, turn whitespace runs into single
hyphens, collapse hyphen runs, `trim()`. -/
def toSlug (name : String) : String :=
  String.mk (jsTrim (collapseHyphenRuns (replaceSpaceRuns
    ((name.toList.map jsToLower).filter slugKeep))))

/-- The slug normalization inlined in the `Person` entity's
`@BeforeInsert/@BeforeUpdate generateSlug` hook (same chain as `toSlug`). -/
def personEntitySlugOf (name : String) : String :=
  String.mk (jsTrim (collapseHyphenRuns (replaceSpaceRuns
    ((name.toList.map jsToLower).filter slugKeep))))

/-- Non-greedy global `replace(/\(.*?\)/g, '')`: from each `(` skip up to
the nearest `)`; a `(` with no later `)` is kept verbatim. -/
def stripParens : List Char → List Char
  | [] => []
  | c :: rest =>
    if c = '(' then
      match h : rest.dropWhile (· ≠ ')') with
      | [] => c :: stripParens rest
      | _ :: after => stripParens after
    else c :: stripParens rest
termination_by l => l.length
decreasing_by
  · simp
  · have h2 := (rest.dropWhile_suffix (· ≠ ')')).sublist.length_le
    rw [h] at h2
    simp only [List.length_cons] at h2 ⊢
    omega
  · simp

/-- The polity-suffix alternatives, lowercase. -/
def politySuffix1 : List Char := "українська рср".toList
def politySuffix2 : List Char := "срср".toList
def politySuffix3 : List Char := "урср".toList
def politySuffix4 : List Char := "російська імперія".toList

/-- Case-insensitive match of one phrase at the head of `l`; on success
returns the remainder after the phrase. -/
def matchPhraseCI (phrase l : List Char) : Option (List Char) :=
  if (l.take phrase.length).map jsToLower = phrase then
    some (l.drop phrase.length)
  else none

/-- The optional leading comma (`,?`) of the polity-suffix pattern. -/
def stripLeadComma (l : List Char) : List Char :=
  match l with
  | [] => []
  | c :: r => if c = ',' then r else c :: r

/-- Match `,?\s*(Українська РСР|СРСР|УРСР|Російська імперія)` (flags `gi`)
at the head of `l`: optional comma, greedy whitespace, then the first
alternative that matches case-insensitively. -/
def matchPolity (l : List Char) : Option (List Char) :=
  let l2 := (stripLeadComma l).dropWhile jsIsSpace
  match matchPhraseCI politySuffix1 l2 with
  | some r => some r
  | none =>
    match matchPhraseCI politySuffix2 l2 with
    | some r => some r
    | none =>
      match matchPhraseCI politySuffix3 l2 with
      | some r => some r
      | none => matchPhraseCI politySuffix4 l2

/-- Global scan applying `matchPolity` at every position
(`replace(/,?\s*(...)/gi, '')`). -/
def stripPolity : List Char → List Char
  | [] => []
  | c :: rest =>
    match h : matchPolity (c :: rest) with
    | some rem => stripPolity rem
    | none => c :: stripPolity rest
termination_by l => l.length
decreasing_by
  · have phraseLen : ∀ phrase l r : List Char, phrase ≠ [] →
        matchPhraseCI phrase l = some r → r.length < l.length := by
      intro phrase l r hne hm
      unfold matchPhraseCI at hm
      split at hm
      · next heq =>
        cases hm
        have hlen : (l.take phrase.length).length = phrase.length := by
          rw [← heq]; simp
        have hple : phrase.length ≤ l.length := by
          simp only [List.length_take] at hlen
          omega
        have hpos : 0 < phrase.length := List.length_pos.mpr hne
        simp only [List.length_drop]
        omega
      · exact absurd hm (by simp)
    have commaLen : ∀ l : List Char, (stripLeadComma l).length ≤ l.length := by
      intro l
      cases l with
      | nil => simp [stripLeadComma]
      | cons a r =>
        simp only [stripLeadComma]
        split <;> simp
    have polityLen : ∀ l r : List Char, matchPolity l = some r →
        r.length < l.length := by
      intro l r hm
      unfold matchPolity at hm
      have hle : ((stripLeadComma l).dropWhile jsIsSpace).length ≤ l.length :=
        le_trans ((stripLeadComma l).dropWhile_suffix jsIsSpace).sublist.length_le
          (commaLen l)
      have key : ∀ ph : List Char, ph ≠ [] →
          matchPhraseCI ph ((stripLeadComma l).dropWhile jsIsSpace) = some r →
          r.length < l.length := by
        intro ph hph hmm
        exact lt_of_lt_of_le (phraseLen ph _ r hph hmm) hle
      simp only [] at hm
      split at hm
      · next heq => cases hm; exact key _ (by decide) heq
      · next =>
        split at hm
        · next heq => cases hm; exact key _ (by decide) heq
        · next =>
          split at hm
          · next heq => cases hm; exact key _ (by decide) heq
          · next => exact key _ (by decide) hm
    exact polityLen _ _ h
  · simp

/-- `replace(/,\s*$/, '')`: drop one trailing comma together with the
whitespace after it. -/
def stripTrailingComma (l : List Char) : List Char :=
  match l.reverse.dropWhile jsIsSpace with
  | ',' :: r => r.reverse
  | _ => l

/-- `replace(/\s+/g, ' ')`: each maximal whitespace run becomes one
space (same run-state scheme as `replaceSpaceRunsAux`). -/
def collapseSpacesAux (inRun : Bool) : List Char → List Char
  | [] => []
  | c :: rest =>
    if jsIsSpace c then
      if inRun then collapseSpacesAux true rest
      else ' ' :: collapseSpacesAux true rest
    else c :: collapseSpacesAux false rest

def collapseSpaces (l : List Char) : List Char := collapseSpacesAux false l

/-- `EntityResolutionService.normalizeBirthPlace` (empty input returned
unchanged, mirroring the `if (!place) return place` guard). -/
def normalizeBirthPlace (place : String) : String :=
  if place.isEmpty then place
  else String.mk (jsTrim (collapseSpaces (stripTrailingComma
    (stripPolity (stripParens place.toList)))))

/-- `EntityResolutionService.mapCategoryLabel`: fixed table, unknown
categories pass through. -/
def categoryLabelTable : List (String × String) :=
  [("Категорія:Українські науковці", "scientist"),
   ("Категорія:Українські письменники", "writer"),
   ("Категорія:Політики України", "politician"),
   ("Категорія:Українські художники", "artist"),
   ("Категорія:Українські музиканти", "musician"),
   ("Категорія:Українські актори", "actor"),
   ("Категорія:Українські спортсмени", "athlete"),
   ("Категорія:Українські підприємці", "entrepreneur"),
   ("Категорія:Українські громадські діячі", "activist"),
   ("Категорія:Українські філософи", "philosopher"),
   ("Категорія:Українські історики", "historian"),
   ("Категорія:Українські журналісти", "journalist"),
   ("Категорія:Українські військовики", "military"),
   ("Категорія:Українські дипломати", "diplomat"),
   ("Категорія:Українські релігійні діячі", "religious leader"),
   ("Категорія:Українські співаки", "singer"),
   ("Категорія:Українські телеведучі", "tv presenter")]

def mapCategoryLabel (ukCategory : String) : String :=
  match categoryLabelTable.lookup ukCategory with
  | some v => v
  | none => ukCategory

/-- First position where `/\b(\d{4})\b/` matches (JS `\b` over ASCII
`\w`): four digits not flanked by ASCII word characters; the scan moves
one character at a time, carrying the previous character. -/
def findFourDigitYear (prev : Option Char) : List Char → Option Nat
  | c1 :: c2 :: c3 :: c4 :: rest =>
    if c1.isDigit && c2.isDigit && c3.isDigit && c4.isDigit
        && (match prev with | none => true | some p => !jsIsWordChar p)
        && (match rest.head? with | none => true | some n => !jsIsWordChar n)
    then some ((c1.toNat - 48) * 1000 + (c2.toNat - 48) * 100 +
               (c3.toNat - 48) * 10 + (c4.toNat - 48))
    else findFourDigitYear (some c1) (c2 :: c3 :: c4 :: rest)
  | _ => none

/-- `^(\d{4})-` prefix match. -/
def isoYearPrefix : List Char → Option Nat
  | c1 :: c2 :: c3 :: c4 :: c5 :: _ =>
    if c1.isDigit && c2.isDigit && c3.isDigit && c4.isDigit && c5 = '-'
    then some ((c1.toNat - 48) * 1000 + (c2.toNat - 48) * 100 +
               (c3.toNat - 48) * 10 + (c4.toNat - 48))
    else none
  | _ => none

/-- `EntityResolutionService.extractBirthYear`: falsy input → null; ISO
`YYYY-` prefix first; else first standalone 4-digit run; else null. -/
def extractBirthYear (dateStr : Option String) : Option Int :=
  match dateStr with
  | none => none
  | some s =>
    if s.isEmpty then none
    else match isoYearPrefix s.toList with
      | some y => some (y : Int)
      | none => (findFourDigitYear none s.toList).map (fun y => (y : Int))

/-- Occupation-label → canonical-tag table of `enrichOccupations`. -/
def occupationTable : List (String × String) :=
  [("поет", "writer"), ("письменник", "writer"), ("письменниця", "writer"),
   ("драматург", "writer"), ("прозаїк", "writer"),
   ("науковець", "scientist"), ("вчений", "scientist"),
   ("фізик", "scientist"), ("хімік", "scientist"),
   ("біолог", "scientist"), ("математик", "scientist"),
   ("політик", "politician"), ("державний діяч", "politician"),
   ("художник", "artist"), ("живописець", "artist"),
   ("скульптор", "artist"), ("музикант", "musician"),
   ("композитор", "composer"), ("співак", "singer"),
   ("співачка", "singer"), ("актор", "actor"), ("акторка", "actor"),
   ("режисер", "director"), ("спортсмен", "athlete"),
   ("філософ", "philosopher"), ("історик", "historian"),
   ("журналіст", "journalist"), ("військовик", "military"),
   ("дипломат", "diplomat"), ("підприємець", "entrepreneur")]

/-- `label.toLowerCase().trim()`. -/
def jsLowerTrim (s : String) : String :=
  String.mk (jsTrim (s.toList.map jsToLower))

/-- `filter((v, i, arr) => arr.indexOf(v) === i)`: keep first occurrences. -/
def dedupKeepFirst (seen : List String) : List String → List String
  | [] => []
  | x :: xs =>
    if seen.contains x then dedupKeepFirst seen xs
    else x :: dedupKeepFirst (x :: seen) xs

/-- `EntityResolutionService.enrichOccupations`: map each label through
the table (unmapped labels pass through lowercased/trimmed), deduplicate
keeping first occurrences; primary category is the first entry. -/
def enrichOccupations (occupationLabels : List String) :
    List String × Option String :=
  if occupationLabels.isEmpty then ([], none)
  else
    let mapped := dedupKeepFirst []
      (occupationLabels.map (fun label =>
        let lower := jsLowerTrim label
        match occupationTable.lookup lower with
        | some v => v
        | none => lower))
    (mapped, mapped.head?)

/-! ## Data model

`Person` embeds the TypeORM entity (uuid ids are modelled as `Nat`
tokens issued by a fresh-id counter; `createdAt`/`updatedAt` timestamps
are outside the model).  `meta_data` is the jsonb map: the three keys
written by the pipeline are typed fields, every other key lives in
`extra`.  The PostGIS `birthLocation` point is stored as an `(x, y) =
(lng, lat)` pair, mirroring `ST_MakePoint(lng, lat)`. -/

structure MetaData where
  occupation : Option (List String)
  deathPlace : Option String
  deathYear : Option Int
  extra : List (String × String)
deriving DecidableEq, Repr

structure Person where
  id : Nat
  name : String
  slug : Option String
  wikiPageId : Option Int
  summary : Option String
  birthYear : Option Int
  birthDate : Option String
  birthPlace : Option String
  lat : Option Rat
  lng : Option Rat
  meta_data : MetaData
  views : Int
  rating : Rat
  imageUrl : Option String
  category : Option String
  birthLocation : Option (Rat × Rat)
  isManual : Bool
deriving DecidableEq, Repr

/-- `WikiPerson` — a fully enriched pipeline candidate
(`RawMember` + detail fields + coordinates + rating + category). -/
structure WikiPerson where
  pageid : Int
  title : String
  views : Int
  birthDate : Option String
  birthPlace : Option String
  summary : Option String
  imageUrl : Option String
  occupation : Option (List String)
  deathPlace : Option String
  deathDate : Option String
  lat : Option Rat
  lng : Option Rat
  rating : Rat
  category : String
deriving DecidableEq, Repr

/-- The object literal built by `buildPersonPayload`. -/
structure PersonPayload where
  name : String
  slug : String
  wikiPageId : Int
  category : String
  views : Int
  rating : Rat
  summary : Option String
  imageUrl : Option String
  birthDate : Option String
  birthPlace : Option String
  birthYear : Option Int
  lat : Option Rat
  lng : Option Rat
  meta_data : MetaData
deriving DecidableEq, Repr

/-- The pre-loaded `existingMap : Map<number, Person>` is an association
list keyed by wiki page id. -/
abbrev ExistingMap := List (Int × Person)

/-- `Map.get`. -/
def mapGet (m : ExistingMap) (pageid : Int) : Option Person :=
  match List.find? (fun e => e.1 == pageid) m with
  | some e => some e.2
  | none => none

/-- JS `trim` on a `String`. -/
def jsTrimStr (s : String) : String := String.mk (jsTrim s.toList)

/-- The `/^\d+$/` year-leak test. -/
def isAllDigits (s : String) : Bool :=
  !s.isEmpty && s.toList.all Char.isDigit

/-- The normalized-and-validated birth place of `buildPersonPayload`:
`data.birthPlace ? normalizeBirthPlace(data.birthPlace) : null`, then
discarded if the trimmed result is purely numeric. -/
def payloadBirthPlace (data : WikiPerson) : Option String :=
  let nbp : Option String :=
    if truthyStr data.birthPlace then
      some (normalizeBirthPlace (data.birthPlace.getD ""))
    else none
  match nbp with
  | some s => if !s.isEmpty && isAllDigits (jsTrimStr s) then none else some s
  | none => none

/-- The `meta_data` object of the payload: spread of the existing map with
`occupation`, `deathPlace`, `deathYear` overridden as in the source. -/
def payloadMetaData (data : WikiPerson) (existing : Option Person) : MetaData :=
  let occupationData :=
    match data.occupation with
    | some labels => enrichOccupations labels
    | none => ([], none)
  { occupation :=
      if !occupationData.1.isEmpty then some occupationData.1
      else (existing.bind (fun e => e.meta_data.occupation))
    deathPlace :=
      jsOrStr data.deathPlace (existing.bind (fun e => e.meta_data.deathPlace))
    deathYear :=
      if truthyStr data.deathDate then extractBirthYear data.deathDate
      else (existing.bind (fun e => e.meta_data.deathYear))
    extra := (existing.map (fun e => e.meta_data.extra)).getD [] }

/-- The fresh occupation list computed by `buildPersonPayload`
(`data.occupation ? enrichOccupations(...).occupations : []`). -/
def freshOccupations (data : WikiPerson) : List String :=
  match data.occupation with
  | some labels => (enrichOccupations labels).1
  | none => []

/-- The payload object literal of `buildPersonPayload` (shared by the
insert and the update path, `existing` optional). -/
def mkPayload (data : WikiPerson) (existing : Option Person) : PersonPayload :=
  let occupationData :=
    match data.occupation with
    | some labels => enrichOccupations labels
    | none => ([], none)
  { name := data.title
    slug := toSlug data.title
    wikiPageId := data.pageid
    category :=
      match occupationData.2 with
      | some c => if !c.isEmpty then c else mapCategoryLabel data.category
      | none => mapCategoryLabel data.category
    views := data.views
    rating := data.rating
    summary := jsOrStr data.summary
      (jsOrStr (existing.bind (fun e => e.summary)) none)
    imageUrl := jsOrStr data.imageUrl
      (jsOrStr (existing.bind (fun e => e.imageUrl)) none)
    birthDate := data.birthDate
    birthPlace := payloadBirthPlace data
    birthYear := extractBirthYear data.birthDate
    lat := data.lat
    lng := data.lng
    meta_data := payloadMetaData data existing }

/-- `buildPersonPayload(data, existingMap)`: `null` when the matching
stored record is manual; otherwise the payload together with
`existing?.id`. -/
def buildPersonPayload (data : WikiPerson) (existingMap : ExistingMap) :
    Option (PersonPayload × Option Nat) :=
  match mapGet existingMap data.pageid with
  | some e =>
    if e.isManual then none
    else some (mkPayload data (some e), some e.id)
  | none => some (mkPayload data none, none)

/-! ## Persistence layer

A list of `Person` rows plus a fresh-id counter.  `repository.update(id,
payload)` sets exactly the payload's columns; the raw PostGIS query sets
`birthLocation`; `repository.save` of new payloads assigns fresh ids and
runs the entity's `@BeforeInsert generateSlug` hook. -/

structure DB where
  persons : List Person
  nextId : Nat
deriving DecidableEq, Repr

/-- `Person.generateSlug` (`@BeforeInsert`/`@BeforeUpdate`): only when
`name` is truthy and `slug` is falsy, set the slug from the name. -/
def generateSlugHook (p : Person) : Person :=
  if !p.name.isEmpty && !truthyStr p.slug then
    { p with slug := some (personEntitySlugOf p.name) }
  else p

/-- A `Person` row created from an insert payload (defaults: `isManual =
false`, no geometry yet). -/
def personOfPayload (id : Nat) (pl : PersonPayload) : Person :=
  { id := id
    name := pl.name
    slug := some pl.slug
    wikiPageId := some pl.wikiPageId
    summary := pl.summary
    birthYear := pl.birthYear
    birthDate := pl.birthDate
    birthPlace := pl.birthPlace
    lat := pl.lat
    lng := pl.lng
    meta_data := pl.meta_data
    views := pl.views
    rating := pl.rating
    imageUrl := pl.imageUrl
    category := some pl.category
    birthLocation := none
    isManual := false }

/-- `repository.update(id, payload)`: overwrite the payload's columns on
the row with that id; `isManual`, `birthLocation` and the id itself are
not part of the payload and stay. -/
def applyPayload (p : Person) (pl : PersonPayload) : Person :=
  { p with
    name := pl.name
    slug := some pl.slug
    wikiPageId := some pl.wikiPageId
    category := some pl.category
    views := pl.views
    rating := pl.rating
    summary := pl.summary
    imageUrl := pl.imageUrl
    birthDate := pl.birthDate
    birthPlace := pl.birthPlace
    birthYear := pl.birthYear
    lat := pl.lat
    lng := pl.lng
    meta_data := pl.meta_data }

def updatePerson (db : DB) (id : Nat) (pl : PersonPayload) : DB :=
  { db with persons :=
      db.persons.map (fun p => if p.id = id then applyPayload p pl else p) }

/-- The raw `UPDATE person SET "birthLocation" = ST_SetSRID(
ST_MakePoint(lng, lat), 4326) WHERE id = ...` query. -/
def setGeo (db : DB) (id : Nat) (lat lng : Rat) : DB :=
  { db with persons :=
      db.persons.map (fun p =>
        if p.id = id then { p with birthLocation := some (lng, lat) } else p) }

/-- Bulk `repository.save(newPayloads)`: assign consecutive fresh ids, run
the insert hook, append; returns the saved entities as well. -/
def insertPayloads (db : DB) (pls : List PersonPayload) : DB × List Person :=
  let savedEntities :=
    (List.range pls.length).zip pls |>.map
      (fun ip => generateSlugHook (personOfPayload (db.nextId + ip.1) ip.2))
  ({ persons := db.persons ++ savedEntities
     nextId := db.nextId + pls.length }, savedEntities)

/-! ## batchSavePersons

One pass per `SAVE_BATCH_SIZE = 50` chunk: first build `newPayloads`,
`updateOps` and `newWithCoords` via `buildPersonPayload` (manual records
produce no op at all), then bulk-insert with a batched geometry update,
then apply per-record updates with their geometry updates.  The model is
the success path: repository errors and the error counter stay at zero. -/

structure UpdateOp where
  opId : Nat
  payload : PersonPayload
  lat : Option Rat
  lng : Option Rat
deriving DecidableEq, Repr

structure NewCoord where
  index : Nat
  lat : Rat
  lng : Rat
deriving DecidableEq, Repr

/-- The first loop of a batch: accumulate `newPayloads`, `updateOps`,
`newWithCoords` in push order. -/
def prepareOps (batch : List WikiPerson) (existingMap : ExistingMap) :
    List PersonPayload × List UpdateOp × List NewCoord :=
  batch.foldl (fun acc person =>
    match buildPersonPayload person existingMap with
    | none => acc
    | some (pl, some existingId) =>
      (acc.1, acc.2.1 ++ [⟨existingId, pl, person.lat, person.lng⟩], acc.2.2)
    | some (pl, none) =>
      let newPayloads := acc.1 ++ [pl]
      let coords :=
        if truthyNum person.lat && truthyNum person.lng then
          acc.2.2 ++ [⟨newPayloads.length - 1,
                       person.lat.getD 0, person.lng.getD 0⟩]
        else acc.2.2
      (newPayloads, acc.2.1, coords))
    ([], [], [])

/-- `geoUpdates`: resolve each recorded index against the saved entities
(uuid ids are always truthy, so the source's `.filter((g) => g.id)` keeps
every resolved entry). -/
def geoUpdatesOfNew (savedEntities : List Person) (coords : List NewCoord) :
    List (Nat × Rat × Rat) :=
  coords.filterMap (fun c =>
    (savedEntities.get? c.index).map (fun e => (e.id, c.lat, c.lng)))

/-- The batched `CASE` geometry update for new rows. -/
def applyGeoUpdates (db : DB) (gs : List (Nat × Rat × Rat)) : DB :=
  gs.foldl (fun d g => setGeo d g.1 g.2.1 g.2.2) db

/-- One iteration of the per-record update loop: `update(id, payload)`
plus a geometry update when both coordinates are truthy. -/
def applyOneUpdate (db : DB) (op : UpdateOp) : DB :=
  let d1 := updatePerson db op.opId op.payload
  if truthyNum op.lat && truthyNum op.lng then
    setGeo d1 op.opId (op.lat.getD 0) (op.lng.getD 0)
  else d1

/-- The per-record update loop. -/
def applyUpdateOps (db : DB) (ops : List UpdateOp) : DB :=
  ops.foldl applyOneUpdate db

/-- One `SAVE_BATCH_SIZE` chunk; returns the new store and the number of
records counted as saved. -/
def processBatch (existingMap : ExistingMap) (db : DB)
    (batch : List WikiPerson) : DB × Nat :=
  let prep := prepareOps batch existingMap
  let inserted :=
    if prep.1.isEmpty then (db, ([] : List Person))
    else insertPayloads db prep.1
  let db2 := applyGeoUpdates inserted.1
    (geoUpdatesOfNew inserted.2 prep.2.2)
  let db3 := applyUpdateOps db2 prep.2.1
  (db3, inserted.2.length + prep.2.1.length)

/-- `people.slice(i, i + SAVE_BATCH_SIZE)` chunking with
`SAVE_BATCH_SIZE = 50`, as a single accumulating pass: `cur` is the
current chunk in reverse. -/
def chunkAccum (batchSize : Nat) (cur : List WikiPerson) :
    List WikiPerson → List (List WikiPerson)
  | [] => if cur.isEmpty then [] else [cur.reverse]
  | x :: xs =>
    if cur.length + 1 < batchSize then chunkAccum batchSize (x :: cur) xs
    else (x :: cur).reverse :: chunkAccum batchSize [] xs

def chunksOf50 (people : List WikiPerson) : List (List WikiPerson) :=
  chunkAccum 50 [] people

/-- `batchSavePersons(people, existingMap)` over a store. -/
def batchSavePersons (people : List WikiPerson) (existingMap : ExistingMap)
    (db : DB) : DB × Nat :=
  (chunksOf50 people).foldl (fun acc batch =>
    let r := processBatch existingMap acc.1 batch
    (r.1, acc.2 + r.2)) (db, 0)

/-! ## recalculateAllRatings

Embeds the raw SQL `UPDATE ... SET rating = ROUND((sub.pct * 10)::numeric,
2) FROM (SELECT id, percent_rank() OVER (ORDER BY views ASC) AS pct FROM
person) sub ...` by the documented SQL semantics: `percent_rank = (rank -
1) / (N - 1)` with ties sharing a rank (`0` for a single row), `ROUND`
half-away-from-zero to 2 decimals. -/

/-- SQL `percent_rank() OVER (ORDER BY views ASC)` of value `v` among
`allViews`. -/
def percentRank (allViews : List Int) (v : Int) : Rat :=
  if allViews.length ≤ 1 then 0
  else ((allViews.countP (fun w => w < v) : Int) : Rat) /
       ((allViews.length : Int) - 1 : Int)

/-- Floor of a rational (`Rat.floor`), in executable form. -/
def ratFloor (x : Rat) : Int := x.num / (x.den : Int)

/-- SQL `ROUND(x::numeric, 2)` for non-negative `x`. -/
def round2 (x : Rat) : Rat := ((ratFloor (x * 100 + 1 / 2) : Int) : Rat) / 100

def recalculateAllRatings (db : DB) : DB :=
  let allViews := db.persons.map (fun p => p.views)
  { db with persons :=
      db.persons.map (fun p =>
        { p with rating := round2 (percentRank allViews p.views * 10) }) }

/-! ## fetchFromWiki — retry client

The response of each attempt is a parameter (`responses n` is what the
`n`-th `fetch` returns).  `res.ok` is status 200–299; the body is kept
abstract (a successful JSON parse returns it).  The result also carries
the list of backoff delays actually slept, in order. -/

structure WikiResponse where
  status : Nat
  contentTypeJson : Bool
  body : String
deriving DecidableEq, Repr

inductive FetchOutcome where
  /-- 2xx with a JSON content type: `res.json()`. -/
  | okJson (body : String)
  /-- 2xx, other content type, body starts with a brace after
  `trimStart`: `JSON.parse(text)`. -/
  | okParsed (body : String)
  /-- 2xx, other content type, body not JSON-shaped: `Non-JSON response`. -/
  | errNonJson
  /-- thrown `Wikipedia API returned HTTP <status>`. -/
  | errHttp (status : Nat)
deriving DecidableEq, Repr

def statusOk (s : Nat) : Bool := 200 ≤ s && s ≤ 299

def retryableStatus (s : Nat) : Bool := s == 429 || 500 ≤ s

/-- `text.trimStart().startsWith(brace)`. -/
def looksJson (body : String) : Bool :=
  match jsTrimStart body.toList with
  | c :: _ => c = Char.ofNat 123
  | [] => false

def handleOkResponse (r : WikiResponse) : FetchOutcome :=
  if r.contentTypeJson then .okJson r.body
  else if looksJson r.body then .okParsed r.body
  else .errNonJson

/-- The `for (attempt = 1; attempt <= retries; attempt++)` loop;
`fuel = retries - attempt + 1` iterations remain.  Falling out of the
loop (only possible when `retries = 0`) returns `none`, mirroring the
implicit `undefined`. -/
def fetchLoop (responses : Nat → WikiResponse) (attempt fuel retries : Nat) :
    Option FetchOutcome × List Nat :=
  match fuel with
  | 0 => (none, [])
  | fuel' + 1 =>
    let r := responses attempt
    if statusOk r.status then (some (handleOkResponse r), [])
    else if attempt < retries && retryableStatus r.status then
      let delay := 2000 * 2 ^ (attempt - 1)
      let rest := fetchLoop responses (attempt + 1) fuel' retries
      (rest.1, delay :: rest.2)
    else (some (.errHttp r.status), [])

/-- `fetchFromWiki(params, retries = 3)`. -/
def fetchFromWiki (responses : Nat → WikiResponse) (retries : Nat := 3) :
    Option FetchOutcome × List Nat :=
  fetchLoop responses 1 retries retries

/-! ## filterHumansOnly

Members already in the store pass through; the rest are checked against
Wikidata.  `wikidataMap` is the (partial) pageid → Q-id resolution
returned by `fetchWikidataIds`; `sparqlHumans` is the overall outcome of
the batched SPARQL humanness queries — `none` models a batch failing
after retries (the source then discards the partial result set and fails
open), `some ids` the merged set of confirmed-human Q-ids. -/

structure RawMember where
  pageid : Int
  title : String
  views : Int
deriving DecidableEq, Repr

/-- `fetchWikidataIds` result as an association list. -/
abbrev WikidataMap := List (Int × String)

def wdGet (m : WikidataMap) (pageid : Int) : Option String :=
  match List.find? (fun e => e.1 == pageid) m with
  | some e => some e.2
  | none => none

def filterHumansOnly (members : List RawMember) (existingMap : ExistingMap)
    (wikidataMap : WikidataMap) (sparqlHumans : Option (List String)) :
    List RawMember :=
  let result := members.filter (fun m => (mapGet existingMap m.pageid).isSome)
  let toCheck := members.filter (fun m => (mapGet existingMap m.pageid).isNone)
  if toCheck.isEmpty then result
  else
    let allWdIds := toCheck.filterMap (fun m => wdGet wikidataMap m.pageid)
    if allWdIds.isEmpty then result
    else
      match sparqlHumans with
      | none => result ++ toCheck
      | some humanWdIds =>
        result ++ toCheck.filter (fun m =>
          match wdGet wikidataMap m.pageid with
          | some wdId => humanWdIds.contains wdId
          | none => false)

/-! ## SearchService.search

The trigram/full-text queries live in the store substrate; the model
takes their result lists (each already `LIMIT`-bounded by SQL) and embeds
the combination logic. -/

structure SearchResult where
  person : Person
  similarity : Option Rat
  rank : Option Rat
deriving DecidableEq, Repr

inductive SearchType where
  | fuzzy
  | fulltext
  | combined
deriving DecidableEq, Repr

def search (type : SearchType) (limit : Nat)
    (fuzzyResults fullTextResults : List SearchResult) : List SearchResult :=
  match type with
  | .fuzzy => fuzzyResults
  | .fulltext => fullTextResults
  | .combined =>
    if limit ≤ fuzzyResults.length then fuzzyResults
    else
      let fuzzyIds := fuzzyResults.map (fun r => r.person.id)
      (fuzzyResults ++
        fullTextResults.filter (fun r => !fuzzyIds.contains r.person.id)
      ).take limit

/-! ## enrichWithCoordinates — geocoding stage

The geocode cache maps lowercased/trimmed place names to a coordinate
pair or an explicit not-found `none`; `geocoder` is
`resolveGeoLocation`.  Besides the enriched members and the final cache,
the model returns the list of birth places actually sent to the geocoder
(in call order) so that call-avoidance is observable. -/

abbrev GeoCache := List (String × Option (Rat × Rat))

def cacheHas (cache : GeoCache) (key : String) : Bool :=
  (List.find? (fun e => e.1 == key) cache).isSome

def cacheGet (cache : GeoCache) (key : String) : Option (Rat × Rat) :=
  match List.find? (fun e => e.1 == key) cache with
  | some e => e.2
  | none => none

/-- `member.birthPlace.toLowerCase().trim()`. -/
def geoCacheKey (place : String) : String :=
  String.mk (jsTrim (place.toList.map jsToLower))

structure DetailedMember where
  pageid : Int
  title : String
  views : Int
  birthDate : Option String
  birthPlace : Option String
deriving DecidableEq, Repr

structure EnrichedMember where
  member : DetailedMember
  lat : Option Rat
  lng : Option Rat
deriving DecidableEq, Repr

/-- The geocode branch of one `enrichWithCoordinates` iteration: consult
the cache under the lowercased/trimmed key, else call the geocoder and
cache the result (including an explicit not-found). -/
def enrichStepGeocode (geocoder : String → Option (Rat × Rat))
    (m : DetailedMember) (cache : GeoCache) :
    EnrichedMember × GeoCache × List String :=
  match m.birthPlace with
  | some place =>
    if place ≠ "" ∧ place ≠ "Невідомо" then
      let key := geoCacheKey place
      if cacheHas cache key then
        (⟨m, (cacheGet cache key).map Prod.fst,
             (cacheGet cache key).map Prod.snd⟩, cache, [])
      else
        let coords := geocoder place
        (⟨m, coords.map Prod.fst, coords.map Prod.snd⟩,
         cache ++ [(key, coords)], [place])
    else (⟨m, none, none⟩, cache, [])
  | none => (⟨m, none, none⟩, cache, [])

/-- One loop iteration of `enrichWithCoordinates` for one member:
returns the enriched entry, the cache after the iteration, and the
geocoder calls made (`[]` or `[birthPlace]`). -/
def enrichStep (existingMap : ExistingMap)
    (geocoder : String → Option (Rat × Rat)) (m : DetailedMember)
    (cache : GeoCache) : EnrichedMember × GeoCache × List String :=
  match mapGet existingMap m.pageid with
  | some existing =>
    if truthyNum existing.lat && truthyNum existing.lng && !existing.isManual
    then (⟨m, existing.lat, existing.lng⟩, cache, [])
    else enrichStepGeocode geocoder m cache
  | none => enrichStepGeocode geocoder m cache

/-- The geocoding stage over a member list. -/
def enrichWithCoordinates (existingMap : ExistingMap)
    (geocoder : String → Option (Rat × Rat)) (members : List DetailedMember)
    (cache : GeoCache) : List EnrichedMember × GeoCache × List String :=
  members.foldl (fun acc m =>
    let step := enrichStep existingMap geocoder m acc.2.1
    (acc.1 ++ [step.1], step.2.1, acc.2.2 ++ step.2.2))
    ([], cache, [])

/-- The cache pre-warm of `runFullSyncPipeline`: every stored person with
SQL-non-null coordinates and a truthy birth place seeds the cache, first
writer wins per key. -/
def prewarmGeocodeCache (persons : List Person) : GeoCache :=
  (persons.filter (fun p => p.lat.isSome && p.lng.isSome)).foldl
    (fun cache p =>
      match p.birthPlace with
      | some place =>
        if place ≠ "" then
          let key := geoCacheKey place
          if cacheHas cache key then cache
          else cache ++ [(key, some (p.lat.getD 0, p.lng.getD 0))]
        else cache
      | none => cache)
    []

/-! ## ProposedEditsService.approve

`edit.changes` maps person fields to `{ old, new }` pairs; applying the
edit assigns each `new` value and then forces `isManual = true`.  The
changes object is modelled as one optional new value per assignable
column (outer `Option` = key present in `changes`; inner value may be
`null`). -/

structure ProposedChanges where
  nameC : Option String := none
  summaryC : Option (Option String) := none
  birthDateC : Option (Option String) := none
  birthPlaceC : Option (Option String) := none
  birthYearC : Option (Option Int) := none
  latC : Option (Option Rat) := none
  lngC : Option (Option Rat) := none
  imageUrlC : Option (Option String) := none
  categoryC : Option (Option String) := none
  isManualC : Option Bool := none
deriving DecidableEq, Repr

/-- The `for (const [field, value] of Object.entries(edit.changes))`
assignment loop. -/
def applyChanges (p : Person) (ch : ProposedChanges) : Person :=
  { p with
    name := ch.nameC.getD p.name
    summary := ch.summaryC.getD p.summary
    birthDate := ch.birthDateC.getD p.birthDate
    birthPlace := ch.birthPlaceC.getD p.birthPlace
    birthYear := ch.birthYearC.getD p.birthYear
    lat := ch.latC.getD p.lat
    lng := ch.lngC.getD p.lng
    imageUrl := ch.imageUrlC.getD p.imageUrl
    category := ch.categoryC.getD p.category
    isManual := ch.isManualC.getD p.isManual }

/-- `edit.changes.lat?.new ?? person.lat` after the assignment loop: a
changed non-null latitude, else the (already updated) record's value. -/
def approveLat (ch : ProposedChanges) (updated : Person) : Option Rat :=
  match ch.latC with
  | some (some v) => some v
  | _ => updated.lat

def approveLng (ch : ProposedChanges) (updated : Person) : Option Rat :=
  match ch.lngC with
  | some (some v) => some v
  | _ => updated.lng

/-- `ProposedEditsService.approve` restricted to its effect on the person
store (the edit row's own status change is bookkeeping outside the
store).  A missing person leaves the store untouched; otherwise the
changes are applied, `isManual` is forced to `true`, `save` runs the
`@BeforeUpdate` slug hook, and a geometry update follows when the
resulting coordinates are truthy. -/
def approve (db : DB) (editPersonId : Nat) (ch : ProposedChanges) : DB :=
  match List.find? (fun p => p.id == editPersonId) db.persons with
  | none => db
  | some person =>
    let updated := generateSlugHook
      { applyChanges person ch with isManual := true }
    let db1 : DB :=
      { db with persons :=
          db.persons.map (fun q => if q.id = editPersonId then updated else q) }
    let lat := approveLat ch updated
    let lng := approveLng ch updated
    if truthyNum lat && truthyNum lng then
      setGeo db1 person.id (lat.getD 0) (lng.getD 0)
    else db1

/-! ## Concrete instances

Small concrete stores, candidates and response environments used to
instantiate the theorems below on explicit inputs. -/

def emptyMeta : MetaData := ⟨none, none, none, []⟩

def basePerson : Person :=
  { id := 0, name := "", slug := none, wikiPageId := none, summary := none,
    birthYear := none, birthDate := none, birthPlace := none, lat := none,
    lng := none, meta_data := emptyMeta, views := 0, rating := 0,
    imageUrl := none, category := none, birthLocation := none,
    isManual := false }

def baseWikiPerson : WikiPerson :=
  { pageid := 0, title := "", views := 0, birthDate := none,
    birthPlace := none, summary := none, imageUrl := none,
    occupation := none, deathPlace := none, deathDate := none,
    lat := none, lng := none, rating := 0, category := "" }

/-- A curated (manual) stored record. -/
def w1person : Person :=
  { basePerson with
    id := 1
    name := "Curated One"
    slug := some "curated-one"
    wikiPageId := some 100
    summary := some "curated text"
    views := 3
    isManual := true }

/-- A conflicting fresh candidate for the same page id. -/
def w1data : WikiPerson :=
  { baseWikiPerson with
    pageid := 100
    title := "Curated One Updated"
    views := 900
    lat := some 50
    lng := some 30
    summary := some "scraped text" }

def w1db : DB := ⟨[w1person], 2⟩

def w1map : ExistingMap := [(100, w1person)]

def w2personA : Person :=
  { basePerson with id := 1, views := 5, rating := 3 }

def w2personB : Person := { basePerson with id := 2, views := 17, rating := 1 }

def w2db : DB := ⟨[w2personA, w2personB], 3⟩

/-- A one-record store: its only record is both the minimum and the
maximum by view count. -/
def cex2db : DB := ⟨[{ basePerson with id := 1, views := 5, rating := 7 }], 2⟩

def cex3person : Person :=
  { basePerson with
    id := 1
    name := "Old Name"
    slug := some "old-name"
    wikiPageId := some 100 }

def cex3data : WikiPerson :=
  { baseWikiPerson with pageid := 100, title := "New Name" }

def cex3db : DB := ⟨[cex3person], 2⟩

def cex3map : ExistingMap := [(100, cex3person)]

def cex4person : Person :=
  { basePerson with
    id := 1
    wikiPageId := some 100
    meta_data := ⟨some ["writer"], some "Kyiv", some 1900,
                  [("wikiLink", "w/OldName")]⟩ }

/-- Fresh data with a death date from which no year can be extracted. -/
def cex4data : WikiPerson :=
  { baseWikiPerson with pageid := 100, deathDate := some "unknown" }

def cex4map : ExistingMap := [(100, cex4person)]

/-- Fresh data with no death date and a mappable occupation. -/
def w4data : WikiPerson :=
  { baseWikiPerson with
    pageid := 100
    occupation := some ["поет"]
    deathPlace := some "Lviv" }

def resp404 : Nat → WikiResponse := fun _ => ⟨404, false, ""⟩

def resp503 : Nat → WikiResponse := fun _ => ⟨503, false, ""⟩

def respOkBrace : Nat → WikiResponse := fun _ => ⟨200, false, " \x7b\x7d"⟩

def respOkHtml : Nat → WikiResponse := fun _ => ⟨200, false, "<html>"⟩

def w6existing : Person := { basePerson with id := 1, wikiPageId := some 100 }

def w6map : ExistingMap := [(100, w6existing)]

def w6members : List RawMember :=
  [⟨100, "ExistingPage", 5⟩, ⟨200, "NewHuman", 6⟩,
   ⟨300, "NoWikidata", 7⟩, ⟨400, "NonHuman", 8⟩]

def w6wd : WikidataMap := [(200, "Q200"), (400, "Q400")]

def w7a : SearchResult := ⟨{ basePerson with id := 1 }, some 1, none⟩

def w7b : SearchResult := ⟨{ basePerson with id := 2 }, some (1/2), none⟩

def w7c : SearchResult := ⟨{ basePerson with id := 3 }, none, some 1⟩

def w7fz : List SearchResult := [w7a, w7b]

def w7ft : List SearchResult :=
  [⟨{ basePerson with id := 2 }, none, some (3/4)⟩, w7c]

/-- A stored record whose latitude is the (non-null) number `0`. -/
def cex9person : Person :=
  { basePerson with
    id := 1
    wikiPageId := some 7
    lat := some 0
    lng := some 30 }

def cex9map : ExistingMap := [(7, cex9person)]

def cex9member : DetailedMember := ⟨7, "Someone", 5, none, some "Lviv"⟩

def cex9geo : String → Option (Rat × Rat) := fun _ => some (49, 24)

def w9person : Person :=
  { basePerson with
    id := 1
    wikiPageId := some 7
    lat := some 49
    lng := some 24 }

def w9map : ExistingMap := [(7, w9person)]

def w9cache : GeoCache := [("kyiv", some (50, 30)), ("nowhere", none)]

def w9memberCached : DetailedMember := ⟨8, "Other", 5, none, some "Kyiv"⟩

def w10person : Person :=
  { basePerson with
    id := 5
    name := "Editable Person"
    slug := some "editable-person"
    wikiPageId := some 700 }

def w10db : DB := ⟨[w10person], 6⟩

/-- An approved edit that also (vainly) tries to set `isManual = false`. -/
def w10changes : ProposedChanges :=
  { nameC := some "Edited Name"
    birthYearC := some (some 1900)
    latC := some (some 48)
    lngC := some (some 31)
    isManualC := some false }

/-! ## General lemmas -/

theorem ratFloor_eq (x : Rat) : ratFloor x = ⌊x⌋ := Rat.floor_def.symm

theorem round2_mono {x y : Rat} (h : x ≤ y) : round2 x ≤ round2 y := by
  unfold round2
  rw [ratFloor_eq, ratFloor_eq]
  have h1 : x * 100 + 1 / 2 ≤ y * 100 + 1 / 2 := by nlinarith
  have h2 : (⌊x * 100 + 1 / 2⌋ : Int) ≤ ⌊y * 100 + 1 / 2⌋ :=
    Int.floor_le_floor h1
  have h3 : ((⌊x * 100 + 1 / 2⌋ : Int) : Rat) ≤ ((⌊y * 100 + 1 / 2⌋ : Int) : Rat) := by
    exact_mod_cast h2
  linarith

theorem percentRank_mono (vs : List Int) {v w : Int} (h : v ≤ w) :
    percentRank vs v ≤ percentRank vs w := by
  unfold percentRank
  split
  · exact le_refl _
  · next hlen =>
    have hc : vs.countP (fun x => x < v) ≤ vs.countP (fun x => x < w) :=
      List.countP_mono_left (fun a _ ha => by
        simp only [decide_eq_true_eq] at ha ⊢
        omega)
    have hd : (0 : Rat) < ((vs.length : Int) - 1 : Int) := by
      have : 2 ≤ vs.length := by omega
      have : (1 : Int) ≤ (vs.length : Int) - 1 := by omega
      exact_mod_cast lt_of_lt_of_le zero_lt_one this
    apply (div_le_div_right hd).mpr
    exact_mod_cast hc

theorem percentRank_min (vs : List Int) (v : Int)
    (hmin : ∀ w ∈ vs, v ≤ w) : percentRank vs v = 0 := by
  unfold percentRank
  split
  · rfl
  · have hz : vs.countP (fun x => x < v) = 0 := by
      apply List.countP_eq_zero.mpr
      intro w hw
      simp only [decide_eq_true_eq, not_lt]
      exact hmin w hw
    rw [hz]
    simp

theorem percentRank_max (vs : List Int) (v : Int) (hnd : vs.Nodup)
    (hv : v ∈ vs) (hmax : ∀ w ∈ vs, w ≤ v) (hN : 2 ≤ vs.length) :
    percentRank vs v = 1 := by
  unfold percentRank
  rw [if_neg (by omega)]
  have hsplit := List.length_eq_countP_add_countP (fun x => decide (x < v)) vs
  have hcongr :
      vs.countP (fun a => decide ¬(decide (a < v)) = true) =
        vs.countP (fun x => x == v) := by
    apply List.countP_congr
    intro w hw
    have hle := hmax w hw
    simp only [decide_eq_true_eq, beq_iff_eq, not_lt]
    constructor
    · intro h1; omega
    · intro h1; omega
  have hcount : vs.countP (fun x => x == v) = 1 := by
    rw [← List.count_eq_countP]
    exact List.count_eq_one_of_mem hnd hv
  have hc : vs.countP (fun x => decide (x < v)) = vs.length - 1 := by
    omega
  have hnum : ((vs.countP (fun w => decide (w < v)) : Int) : Rat) =
      (((vs.length : Int) - 1 : Int) : Rat) := by
    rw [hc]
    have hcast : ((vs.length - 1 : Nat) : Int) = (vs.length : Int) - 1 := by
      omega
    exact_mod_cast congrArg (fun n : Int => (n : Rat)) hcast
  have hlen1 : (1 : Int) ≤ (vs.length : Int) - 1 := by omega
  have hne : ((((vs.length : Int) - 1 : Int)) : Rat) ≠ 0 := by
    have h0 : (0 : Rat) < (((vs.length : Int) - 1 : Int) : Rat) := by
      exact_mod_cast lt_of_lt_of_le zero_lt_one hlen1
    exact ne_of_gt h0
  rw [hnum]
  exact div_self hne

/-- Views are untouched by the rating pass, and every output record is an
input record with its rating recomputed. -/
theorem recalculateAllRatings_mem {db : DB} {p' : Person}
    (h : p' ∈ (recalculateAllRatings db).persons) :
    ∃ p ∈ db.persons, p' =
      { p with rating :=
          round2 (percentRank (db.persons.map (fun q => q.views)) p.views * 10) } := by
  simp only [recalculateAllRatings, List.mem_map] at h
  obtain ⟨p, hp, heq⟩ := h
  exact ⟨p, hp, heq.symm⟩

theorem recalculateAllRatings_views (db : DB) :
    (recalculateAllRatings db).persons.map (fun p => p.views) =
      db.persons.map (fun p => p.views) := by
  simp [recalculateAllRatings, List.map_map, Function.comp]

/-! ## C2 — percentile rating recomputation -/

/-- C2 (amended: at least two records).  After `recalculateAllRatings`
over records with pairwise-distinct view counts, a record with the
minimum view count has rating 0, one with the maximum has rating 10, and
ratings are monotonically non-decreasing in view count. -/
theorem recalculateAllRatings_percentile (db : DB)
    (hdist : (db.persons.map (fun p => p.views)).Nodup)
    (hN : 2 ≤ db.persons.length) :
    (∀ p ∈ (recalculateAllRatings db).persons,
      (∀ q ∈ (recalculateAllRatings db).persons, p.views ≤ q.views) →
      p.rating = 0) ∧
    (∀ p ∈ (recalculateAllRatings db).persons,
      (∀ q ∈ (recalculateAllRatings db).persons, q.views ≤ p.views) →
      p.rating = 10) ∧
    (∀ p ∈ (recalculateAllRatings db).persons,
      ∀ q ∈ (recalculateAllRatings db).persons,
      p.views ≤ q.views → p.rating ≤ q.rating) := by
  have hviews := recalculateAllRatings_views db
  have hsrc : ∀ w ∈ db.persons.map (fun p => p.views),
      ∃ q ∈ (recalculateAllRatings db).persons, q.views = w := by
    intro w hw
    rw [← hviews] at hw
    obtain ⟨q, hq, hqw⟩ := List.mem_map.mp hw
    exact ⟨q, hq, hqw⟩
  refine ⟨?_, ?_, ?_⟩
  · intro p hp hmin
    obtain ⟨p0, hp0, rfl⟩ := recalculateAllRatings_mem hp
    have h0 : percentRank (db.persons.map (fun q => q.views)) p0.views = 0 := by
      apply percentRank_min
      intro w hw
      obtain ⟨q, hq, hqw⟩ := hsrc w hw
      have := hmin q hq
      simp only at this ⊢
      omega
    simp only [h0]
    rw [show (0 : Rat) * 10 = 0 by norm_num, round2, ratFloor_eq]
    norm_num
  · intro p hp hmax
    obtain ⟨p0, hp0, rfl⟩ := recalculateAllRatings_mem hp
    have h1 : percentRank (db.persons.map (fun q => q.views)) p0.views = 1 := by
      apply percentRank_max _ _ hdist
      · exact List.mem_map.mpr ⟨p0, hp0, rfl⟩
      · intro w hw
        obtain ⟨q, hq, hqw⟩ := hsrc w hw
        have := hmax q hq
        simp only at this ⊢
        omega
      · simpa using hN
    simp only [h1]
    rw [show (1 : Rat) * 10 = 10 by norm_num, round2, ratFloor_eq]
    norm_num
  · intro p hp q hq hle
    obtain ⟨p0, hp0, rfl⟩ := recalculateAllRatings_mem hp
    obtain ⟨q0, hq0, rfl⟩ := recalculateAllRatings_mem hq
    simp only at hle ⊢
    apply round2_mono
    have := percentRank_mono (db.persons.map (fun r => r.views)) hle
    nlinarith [this]

/-- C2 counterexample to the claim as stated: in a store holding exactly
one record, that record has the maximum view count, yet
`recalculateAllRatings` leaves it at rating 0 (SQL `percent_rank` of a
single row is 0), not 10. -/
theorem recalculateAllRatings_single_row_cex :
    ∃ p ∈ (recalculateAllRatings cex2db).persons,
      (∀ q ∈ (recalculateAllRatings cex2db).persons, q.views ≤ p.views) ∧
      p.rating = 0 ∧ p.rating ≠ 10 := by
  have hdb : (recalculateAllRatings cex2db).persons =
      [{ basePerson with
          id := 1
          views := 5
          rating := round2
            (percentRank (cex2db.persons.map (fun p => p.views)) 5 * 10) }] := rfl
  have hpr : percentRank (cex2db.persons.map (fun p => p.views)) 5 = 0 := rfl
  have hr : round2 (percentRank (cex2db.persons.map (fun p => p.views)) 5 * 10) = 0 := by
    rw [hpr, round2, ratFloor_eq]
    norm_num
  refine ⟨_, by rw [hdb]; exact List.mem_singleton_self _, ?_, ?_, ?_⟩
  · intro q hq
    rw [hdb] at hq
    rcases List.mem_singleton.mp hq with rfl
    exact le_refl _
  · exact hr
  · rw [hr]
    norm_num

/-- Witness: `recalculateAllRatings_percentile` applied to a concrete
two-record store; the max-view record (17 views) gets rating 10. -/
theorem recalculateAllRatings_percentile_witness :
    ({ w2personB with rating := round2 (percentRank (w2db.persons.map (fun p => p.views)) w2personB.views * 10) } : Person).rating = 10 := by
  have hl : (recalculateAllRatings w2db).persons =
      [{ w2personA with rating := round2 (percentRank (w2db.persons.map (fun p => p.views)) w2personA.views * 10) },
       { w2personB with rating := round2 (percentRank (w2db.persons.map (fun p => p.views)) w2personB.views * 10) }] := rfl
  have hmem : ({ w2personB with rating := round2 (percentRank (w2db.persons.map (fun p => p.views)) w2personB.views * 10) } : Person) ∈
      (recalculateAllRatings w2db).persons := by
    rw [hl]
    exact List.mem_cons_of_mem _ (List.mem_singleton_self _)
  apply (recalculateAllRatings_percentile w2db (by decide) (by decide)).2.1
    _ hmem
  intro q hq
  rw [hl] at hq
  rcases List.mem_cons.mp hq with rfl | hq2
  · decide
  · rcases List.mem_singleton.mp hq2 with rfl
    decide

/-! ## C5 — fetchFromWiki retry and backoff -/

/-- One unfolding step of the retry loop. -/
theorem fetchLoop_step (responses : Nat → WikiResponse)
    (attempt fuel retries : Nat) :
    fetchLoop responses attempt (fuel + 1) retries =
      (if statusOk (responses attempt).status then
        (some (handleOkResponse (responses attempt)), [])
      else if attempt < retries && retryableStatus (responses attempt).status then
        ((fetchLoop responses (attempt + 1) fuel retries).1,
         2000 * 2 ^ (attempt - 1) ::
           (fetchLoop responses (attempt + 1) fuel retries).2)
      else (some (.errHttp (responses attempt).status), [])) := rfl

/-- The exhausting run of the retry loop: every attempt up to `retries`
answers a retryable failure status. -/
theorem fetchLoop_exhaust (responses : Nat → WikiResponse) (retries : Nat) :
    ∀ n attempt, attempt + n = retries → 1 ≤ attempt →
    (∀ i ∈ List.range retries, statusOk (responses (i + 1)).status = false ∧
      retryableStatus (responses (i + 1)).status = true) →
    fetchLoop responses attempt (n + 1) retries =
      (some (.errHttp (responses retries).status),
       (List.range n).map (fun k => 2000 * 2 ^ (attempt - 1 + k))) := by
  intro n
  induction n with
  | zero =>
    intro attempt hsum h1 hall
    have hat : attempt = retries := by omega
    subst hat
    have hmem : attempt - 1 ∈ List.range attempt := List.mem_range.mpr (by omega)
    have h := hall (attempt - 1) hmem
    have hca : attempt - 1 + 1 = attempt := by omega
    rw [hca] at h
    rw [fetchLoop_step]
    rw [if_neg (by simp [h.1]), if_neg (by simp)]
    simp
  | succ m ih =>
    intro attempt hsum h1 hall
    have hlt : attempt < retries := by omega
    have hmem : attempt - 1 ∈ List.range retries := List.mem_range.mpr (by omega)
    have h := hall (attempt - 1) hmem
    have hca : attempt - 1 + 1 = attempt := by omega
    rw [hca] at h
    have hrec := ih (attempt + 1) (by omega) (by omega) hall
    rw [fetchLoop_step]
    rw [if_neg (by simp [h.1]), if_pos (by simp [hlt, h.2]), hrec]
    refine Prod.ext rfl ?_
    rw [List.range_succ_eq_map]
    simp only [List.map_cons, List.map_map, Function.comp, Nat.add_sub_cancel]
    refine congrArg₂ List.cons (by simp) ?_
    apply List.map_congr_left
    intro a ha
    have he2 : attempt + a = attempt - 1 + (a + 1) := by omega
    rw [he2]
    exact rfl

/-- C5.  `fetchFromWiki`: a non-2xx response with a status other than 429
and other than 5xx fails immediately with an HTTP error and no backoff
sleep; when every attempt answers 429/5xx, the loop performs exactly
`retries` attempts with doubling backoff delays (2000·2^k) between them
and then fails with the last status; a 2xx response with a non-JSON
content type is parsed as JSON exactly when its body starts with an
opening brace after `trimStart`, and raises a non-JSON error otherwise. -/
theorem fetchFromWiki_spec (responses : Nat → WikiResponse) (retries : Nat) :
    (1 ≤ retries → statusOk (responses 1).status = false →
      retryableStatus (responses 1).status = false →
      fetchFromWiki responses retries =
        (some (.errHttp (responses 1).status), [])) ∧
    ((∀ i ∈ List.range retries, statusOk (responses (i + 1)).status = false ∧
        retryableStatus (responses (i + 1)).status = true) → 1 ≤ retries →
      fetchFromWiki responses retries =
        (some (.errHttp (responses retries).status),
         (List.range (retries - 1)).map (fun k => 2000 * 2 ^ k))) ∧
    (1 ≤ retries → statusOk (responses 1).status = true →
      (responses 1).contentTypeJson = false →
      fetchFromWiki responses retries =
        (some (if looksJson (responses 1).body then
                 .okParsed (responses 1).body
               else .errNonJson), [])) := by
  refine ⟨?_, ?_, ?_⟩
  · intro h1 hok hret
    obtain ⟨m, rfl⟩ := Nat.exists_eq_add_of_le h1
    rw [show 1 + m = m + 1 by omega]
    rw [fetchFromWiki, fetchLoop_step]
    rw [if_neg (by simp [hok]), if_neg (by simp [hret])]
  · intro hall h1
    have h := fetchLoop_exhaust responses retries (retries - 1) 1 (by omega)
      (le_refl 1) hall
    have hfuel : retries - 1 + 1 = retries := by omega
    rw [hfuel] at h
    rw [fetchFromWiki, h]
    simp
  · intro h1 hok hct
    obtain ⟨m, rfl⟩ := Nat.exists_eq_add_of_le h1
    rw [show 1 + m = m + 1 by omega]
    rw [fetchFromWiki, fetchLoop_step]
    rw [if_pos (by simp [hok])]
    simp only [handleOkResponse, hct, Bool.false_eq_true, if_false]

/-- Witness: `fetchFromWiki_spec` on four concrete response
environments — plain 404, persistent 503, 2xx with a JSON-shaped body
under a wrong content type, and 2xx with an HTML body. -/
theorem fetchFromWiki_spec_witness :
    fetchFromWiki resp404 3 = (some (.errHttp 404), []) ∧
    fetchFromWiki resp503 3 = (some (.errHttp 503), [2000, 4000]) ∧
    fetchFromWiki respOkBrace 3 = (some (.okParsed " \x7b\x7d"), []) ∧
    fetchFromWiki respOkHtml 3 = (some .errNonJson, []) := by
  refine ⟨?_, ?_, ?_, ?_⟩
  · exact (fetchFromWiki_spec resp404 3).1 (by decide) (by decide) (by decide)
  · exact ((fetchFromWiki_spec resp503 3).2.1 (by decide) (by decide)).trans
      (by decide)
  · exact ((fetchFromWiki_spec respOkBrace 3).2.2 (by decide) (by decide)
      (by decide)).trans (by decide)
  · exact ((fetchFromWiki_spec respOkHtml 3).2.2 (by decide) (by decide)
      (by decide)).trans (by decide)

/-! ## C6 — filterHumansOnly -/

/-- C6.  `filterHumansOnly`: members already present in the existing-record
map pass through without re-validation (under any SPARQL outcome); when
the humanness validation ran (there was something to check and at least
one resolvable id) and failed as a whole, every pending candidate passes
through; when validation succeeded, a pending candidate with no
resolvable Wikidata id is dropped, and a pending candidate whose id is
not confirmed human is dropped. -/
theorem filterHumansOnly_spec (members : List RawMember)
    (existingMap : ExistingMap) (wikidataMap : WikidataMap) :
    (∀ sparqlHumans, ∀ m ∈ members, (mapGet existingMap m.pageid).isSome →
      m ∈ filterHumansOnly members existingMap wikidataMap sparqlHumans) ∧
    (members.filter (fun m => (mapGet existingMap m.pageid).isNone) ≠ [] →
     (members.filter (fun m => (mapGet existingMap m.pageid).isNone)).filterMap
        (fun m => wdGet wikidataMap m.pageid) ≠ [] →
      filterHumansOnly members existingMap wikidataMap none =
        members.filter (fun m => (mapGet existingMap m.pageid).isSome) ++
        members.filter (fun m => (mapGet existingMap m.pageid).isNone)) ∧
    (∀ humanIds, ∀ m ∈ members, (mapGet existingMap m.pageid).isNone →
      wdGet wikidataMap m.pageid = none →
      m ∉ filterHumansOnly members existingMap wikidataMap (some humanIds)) ∧
    (∀ humanIds wd, ∀ m ∈ members, (mapGet existingMap m.pageid).isNone →
      wdGet wikidataMap m.pageid = some wd → wd ∉ humanIds →
      m ∉ filterHumansOnly members existingMap wikidataMap (some humanIds)) := by
  refine ⟨?_, ?_, ?_, ?_⟩
  · intro sh m hm hsome
    have hres : m ∈ members.filter
        (fun x => (mapGet existingMap x.pageid).isSome) :=
      List.mem_filter.mpr ⟨hm, hsome⟩
    simp only [filterHumansOnly]
    split
    · exact hres
    · split
      · exact hres
      · match sh with
        | none => exact List.mem_append_left _ hres
        | some humanIds => exact List.mem_append_left _ hres
  · intro hne hwd
    simp only [filterHumansOnly]
    rw [if_neg (by simpa using hne), if_neg (by simpa using hwd)]
  · intro humanIds m hm hnone hwd
    have hnotres : m ∉ members.filter
        (fun x => (mapGet existingMap x.pageid).isSome) := by
      intro hc
      have := (List.mem_filter.mp hc).2
      simp only [Option.isNone_iff_eq_none] at hnone
      rw [hnone] at this
      exact absurd this (by simp)
    simp only [filterHumansOnly]
    split
    · exact hnotres
    · split
      · exact hnotres
      · intro hc
        rcases List.mem_append.mp hc with hc1 | hc2
        · exact hnotres hc1
        · have := (List.mem_filter.mp hc2).2
          rw [hwd] at this
          simp at this
  · intro humanIds wd m hm hnone hwd hnh
    have hnotres : m ∉ members.filter
        (fun x => (mapGet existingMap x.pageid).isSome) := by
      intro hc
      have := (List.mem_filter.mp hc).2
      simp only [Option.isNone_iff_eq_none] at hnone
      rw [hnone] at this
      exact absurd this (by simp)
    simp only [filterHumansOnly]
    split
    · exact hnotres
    · split
      · exact hnotres
      · intro hc
        rcases List.mem_append.mp hc with hc1 | hc2
        · exact hnotres hc1
        · have := (List.mem_filter.mp hc2).2
          rw [hwd] at this
          exact hnh (by simpa using this)

/-- Witness: `filterHumansOnly_spec` on a four-member category — one
already stored, one confirmed human, one with no Wikidata id, one
confirmed non-human. -/
theorem filterHumansOnly_spec_witness :
    (⟨100, "ExistingPage", 5⟩ : RawMember) ∈
      filterHumansOnly w6members w6map w6wd (some ["Q200"]) ∧
    filterHumansOnly w6members w6map w6wd none =
      w6members.filter (fun m => (mapGet w6map m.pageid).isSome) ++
      w6members.filter (fun m => (mapGet w6map m.pageid).isNone) ∧
    (⟨300, "NoWikidata", 7⟩ : RawMember) ∉
      filterHumansOnly w6members w6map w6wd (some ["Q200"]) ∧
    (⟨400, "NonHuman", 8⟩ : RawMember) ∉
      filterHumansOnly w6members w6map w6wd (some ["Q200"]) := by
  refine ⟨?_, ?_, ?_, ?_⟩
  · exact (filterHumansOnly_spec w6members w6map w6wd).1 (some ["Q200"]) _
      (by decide) (by decide)
  · exact (filterHumansOnly_spec w6members w6map w6wd).2.1 (by decide)
      (by decide)
  · exact (filterHumansOnly_spec w6members w6map w6wd).2.2.1 ["Q200"] _
      (by decide) (by decide) (by decide)
  · exact (filterHumansOnly_spec w6members w6map w6wd).2.2.2 ["Q200"] "Q400" _
      (by decide) (by decide) (by decide) (by decide)

/-! ## C7 — combined search -/

/-- C7.  Combined search: with the fuzzy list already `LIMIT`-bounded and
both source lists id-deduplicated (as SQL returns them), if fuzzy alone
reaches the limit the combined result is exactly the fuzzy list;
otherwise it is the fuzzy list followed by the full-text hits whose
record ids are new, truncated to the limit; the result never exceeds the
limit in length and contains no two entries with the same record id. -/
theorem search_combined_spec (limit : Nat)
    (fuzzyResults fullTextResults : List SearchResult)
    (hlen : fuzzyResults.length ≤ limit)
    (hfz : (fuzzyResults.map (fun r => r.person.id)).Nodup)
    (hft : (fullTextResults.map (fun r => r.person.id)).Nodup) :
    (limit ≤ fuzzyResults.length →
      search .combined limit fuzzyResults fullTextResults = fuzzyResults) ∧
    (fuzzyResults.length < limit →
      search .combined limit fuzzyResults fullTextResults =
        (fuzzyResults ++ fullTextResults.filter (fun r =>
          !(fuzzyResults.map (fun x => x.person.id)).contains r.person.id)
        ).take limit) ∧
    (search .combined limit fuzzyResults fullTextResults).length ≤ limit ∧
    ((search .combined limit fuzzyResults fullTextResults).map
      (fun r => r.person.id)).Nodup := by
  have hnodup :
      ((fuzzyResults ++ fullTextResults.filter (fun r =>
        !(fuzzyResults.map (fun x => x.person.id)).contains r.person.id)
       ).map (fun r => r.person.id)).Nodup := by
    rw [List.map_append]
    apply List.Nodup.append hfz
    · exact List.Nodup.sublist
        ((List.filter_sublist fullTextResults).map (fun r => r.person.id)) hft
    · intro a ha hb
      obtain ⟨r, hr, rfl⟩ := List.mem_map.mp hb
      have hpred := (List.mem_filter.mp hr).2
      have : r.person.id ∉ fuzzyResults.map (fun x => x.person.id) := by
        simpa using hpred
      exact this ha
  refine ⟨?_, ?_, ?_, ?_⟩
  · intro hge
    simp only [search]
    rw [if_pos hge]
  · intro hlt
    simp only [search]
    rw [if_neg (by omega)]
  · simp only [search]
    split
    · exact hlen
    · exact le_trans (List.length_take_le _ _) (by simp)
  · simp only [search]
    split
    · exact hfz
    · refine List.Nodup.sublist ?_ hnodup
      rw [List.map_take]
      exact List.take_sublist _ _

/-- Witness: `search_combined_spec` on two fuzzy hits and two full-text
hits sharing one record id, with limit 3. -/
theorem search_combined_spec_witness :
    (search .combined 3 w7fz w7ft).length ≤ 3 ∧
    ((search .combined 3 w7fz w7ft).map (fun r => r.person.id)).Nodup := by
  have h := search_combined_spec 3 w7fz w7ft (by decide) (by decide) (by decide)
  exact ⟨h.2.2.1, h.2.2.2⟩

/-! ## C4 — meta_data merge on update -/

/-- C4 (amended).  On update the payload's `meta_data` preserves every
stored key other than `occupation`, `deathPlace`, `deathYear`;
`occupation` and `deathPlace` are overwritten only when a fresh
non-empty value exists and retained otherwise; `deathYear`, however, is
recomputed whenever `data.deathDate` is non-empty — even when no year
can be extracted from it (storing null) — and is retained only when
`deathDate` is absent. -/
theorem buildPersonPayload_metaData_merge (data : WikiPerson)
    (existingMap : ExistingMap) (e : Person)
    (hm : mapGet existingMap data.pageid = some e)
    (hman : e.isManual = false) :
    ∃ pl, buildPersonPayload data existingMap = some (pl, some e.id) ∧
      pl.meta_data.extra = e.meta_data.extra ∧
      (freshOccupations data ≠ [] →
        pl.meta_data.occupation = some (freshOccupations data)) ∧
      (freshOccupations data = [] →
        pl.meta_data.occupation = e.meta_data.occupation) ∧
      (truthyStr data.deathPlace = true →
        pl.meta_data.deathPlace = data.deathPlace) ∧
      (truthyStr data.deathPlace = false →
        pl.meta_data.deathPlace = e.meta_data.deathPlace) ∧
      (truthyStr data.deathDate = true →
        pl.meta_data.deathYear = extractBirthYear data.deathDate) ∧
      (truthyStr data.deathDate = false →
        pl.meta_data.deathYear = e.meta_data.deathYear) := by
  refine ⟨mkPayload data (some e), ?_, ?_, ?_, ?_, ?_, ?_, ?_, ?_⟩
  · simp [buildPersonPayload, hm, hman]
  · rfl
  · intro hocc
    cases hd : data.occupation with
    | none => simp [freshOccupations, hd] at hocc
    | some labels =>
      have hne : (enrichOccupations labels).1.isEmpty = false := by
        simp only [freshOccupations, hd] at hocc
        simpa using hocc
      show (payloadMetaData data (some e)).occupation = _
      simp [payloadMetaData, hd, hne, freshOccupations]
  · intro hocc
    cases hd : data.occupation with
    | none =>
      show (payloadMetaData data (some e)).occupation = _
      simp [payloadMetaData, hd]
    | some labels =>
      have hemp : (enrichOccupations labels).1.isEmpty = true := by
        simp only [freshOccupations, hd] at hocc
        simpa using hocc
      show (payloadMetaData data (some e)).occupation = _
      simp [payloadMetaData, hd, hemp]
  · intro hdp
    show (payloadMetaData data (some e)).deathPlace = _
    unfold payloadMetaData jsOrStr
    rw [if_pos hdp]
  · intro hdp
    show (payloadMetaData data (some e)).deathPlace = _
    unfold payloadMetaData jsOrStr
    rw [if_neg (by simp [hdp])]
    simp
  · intro hdd
    show (payloadMetaData data (some e)).deathYear = _
    unfold payloadMetaData
    rw [if_pos hdd]
  · intro hdd
    show (payloadMetaData data (some e)).deathYear = _
    unfold payloadMetaData
    rw [if_neg (by simp [hdd])]
    simp

/-- C4 counterexample to the claim as stated: the stored `deathYear`
1900 is overwritten with null although the fresh death date "unknown"
yields no year (no fresh non-empty value exists). -/
theorem metaData_deathYear_overwrite_cex :
    cex4person.meta_data.deathYear = some 1900 ∧
    truthyStr cex4data.deathDate = true ∧
    extractBirthYear cex4data.deathDate = none ∧
    (buildPersonPayload cex4data cex4map).map
      (fun r => r.1.meta_data.deathYear) = some none := by decide

/-- Witness: `buildPersonPayload_metaData_merge` on fresh data carrying
an occupation and a death place but no death date. -/
theorem buildPersonPayload_metaData_merge_witness :
    ∃ pl, buildPersonPayload w4data cex4map = some (pl, some 1) ∧
      pl.meta_data.extra = [("wikiLink", "w/OldName")] ∧
      pl.meta_data.occupation = some ["writer"] ∧
      pl.meta_data.deathPlace = some "Lviv" ∧
      pl.meta_data.deathYear = some 1900 := by
  obtain ⟨pl, h1, h2, h3, _, h5, _, _, h8⟩ :=
    buildPersonPayload_metaData_merge w4data cex4map cex4person
      (by decide) (by decide)
  refine ⟨pl, h1, h2.trans (by decide), ?_, ?_, ?_⟩
  · exact (h3 (by decide)).trans (by decide)
  · exact (h5 (by decide)).trans (by decide)
  · exact (h8 (by decide)).trans (by decide)

/-! ## C3 — slug generation -/

/-- C3 (amended).  The slug uses the same normalization everywhere: the
entity hook's inline chain is exactly `toSlug`, and the hook never
touches an already-set (truthy) slug — but `buildPersonPayload` puts a
freshly computed `toSlug(title)` into every payload, updates included,
so a later pipeline save does regenerate the slug and overwrites the
stored one when the current title slugs differently. -/
theorem slug_generation (data : WikiPerson) (existingMap : ExistingMap)
    (p : Person) (pl : PersonPayload) (eid : Option Nat)
    (hp : truthyStr p.slug = true)
    (hb : buildPersonPayload data existingMap = some (pl, eid)) :
    personEntitySlugOf = toSlug ∧
    generateSlugHook p = p ∧
    pl.slug = toSlug data.title ∧
    (applyPayload p pl).slug = some (toSlug data.title) := by
  refine ⟨rfl, ?_, ?_, ?_⟩
  · unfold generateSlugHook
    rw [if_neg (by simp [hp])]
  · unfold buildPersonPayload at hb
    split at hb
    · split at hb
      · exact absurd hb (by simp)
      · cases hb
        rfl
    · cases hb
      rfl
  · unfold buildPersonPayload at hb
    split at hb
    · split at hb
      · exact absurd hb (by simp)
      · cases hb
        rfl
    · cases hb
      rfl

/-- C3 counterexample to the claim as stated: a stored record with the
non-null slug "old-name" (not manual) is matched by a candidate whose
title is "New Name"; the pipeline's save step overwrites the stored slug
with the regenerated "new-name". -/
theorem slug_regenerated_on_update_cex :
    cex3person.slug = some "old-name" ∧
    cex3person.isManual = false ∧
    (batchSavePersons [cex3data] cex3map cex3db).1.persons.map
      (fun p => p.slug) = [some "new-name"] ∧
    (some "new-name" : Option String) ≠ some "old-name" := by decide

/-- Witness: `slug_generation` on the "New Name" candidate against the
"old-name" record. -/
theorem slug_generation_witness :
    generateSlugHook cex3person = cex3person ∧
    (mkPayload cex3data (some cex3person)).slug = toSlug "New Name" := by
  obtain ⟨-, h2, h3, -⟩ := slug_generation cex3data cex3map cex3person
    (mkPayload cex3data (some cex3person)) (some 1) (by decide) (by decide)
  exact ⟨h2, h3⟩

/-! ## C9 — geocoding skip and cache -/

theorem cacheHas_append (cache : GeoCache) (entry : String × Option (Rat × Rat))
    (k : String) (h : cacheHas cache k = true) :
    cacheHas (cache ++ [entry]) k = true := by
  unfold cacheHas at *
  rw [List.find?_append]
  rcases hf : List.find? (fun e => e.1 == k) cache with _ | e
  · rw [hf] at h
    simp at h
  · rw [hf]
    simp [Option.or]

/-- The geocode branch either hits the cache (or has no usable place)
with no call, or makes exactly one call for an uncached key and caches
its result. -/
theorem enrichStepGeocode_cases (geocoder : String → Option (Rat × Rat))
    (m : DetailedMember) (cache : GeoCache) :
    ((enrichStepGeocode geocoder m cache).2.2 = [] ∧
     (enrichStepGeocode geocoder m cache).2.1 = cache) ∨
    (∃ place, m.birthPlace = some place ∧
      cacheHas cache (geoCacheKey place) = false ∧
      (enrichStepGeocode geocoder m cache).2.2 = [place] ∧
      (enrichStepGeocode geocoder m cache).2.1 =
        cache ++ [(geoCacheKey place, geocoder place)]) := by
  unfold enrichStepGeocode
  split
  · next place hp =>
    split
    · dsimp only
      split
      · left
        exact ⟨rfl, rfl⟩
      · next hhas =>
        right
        exact ⟨place, hp, by simpa using hhas, rfl, rfl⟩
    · left
      exact ⟨rfl, rfl⟩
  · left
    exact ⟨rfl, rfl⟩

/-- Every iteration either leaves the cache alone and makes no geocoder
call, or makes exactly one call for a birth place whose key was not in
the cache, appending its result. -/
theorem enrichStep_cases (existingMap : ExistingMap)
    (geocoder : String → Option (Rat × Rat)) (m : DetailedMember)
    (cache : GeoCache) :
    ((enrichStep existingMap geocoder m cache).2.2 = [] ∧
     (enrichStep existingMap geocoder m cache).2.1 = cache) ∨
    (∃ place, m.birthPlace = some place ∧
      cacheHas cache (geoCacheKey place) = false ∧
      (enrichStep existingMap geocoder m cache).2.2 = [place] ∧
      (enrichStep existingMap geocoder m cache).2.1 =
        cache ++ [(geoCacheKey place, geocoder place)]) := by
  unfold enrichStep
  split
  · split
    · left
      exact ⟨rfl, rfl⟩
    · exact enrichStepGeocode_cases geocoder m cache
  · exact enrichStepGeocode_cases geocoder m cache

/-- Invariant of the geocoding fold: the cache only grows, and every
geocoder call is for a key absent from the starting cache. -/
theorem enrichFold_invariant (existingMap : ExistingMap)
    (geocoder : String → Option (Rat × Rat)) (members : List DetailedMember) :
    ∀ acc : List EnrichedMember × GeoCache × List String, ∀ cache0 : GeoCache,
    (∀ k, cacheHas cache0 k = true → cacheHas acc.2.1 k = true) →
    (∀ place ∈ acc.2.2, cacheHas cache0 (geoCacheKey place) = false) →
    (∀ k, cacheHas cache0 k = true →
      cacheHas (members.foldl (fun acc m =>
        let step := enrichStep existingMap geocoder m acc.2.1
        (acc.1 ++ [step.1], step.2.1, acc.2.2 ++ step.2.2)) acc).2.1 k = true) ∧
    (∀ place ∈ (members.foldl (fun acc m =>
        let step := enrichStep existingMap geocoder m acc.2.1
        (acc.1 ++ [step.1], step.2.1, acc.2.2 ++ step.2.2)) acc).2.2,
      cacheHas cache0 (geoCacheKey place) = false) := by
  induction members with
  | nil =>
    intro acc cache0 hmono hcalls
    exact ⟨hmono, hcalls⟩
  | cons m ms ih =>
    intro acc cache0 hmono hcalls
    simp only [List.foldl_cons]
    rcases enrichStep_cases existingMap geocoder m acc.2.1 with
      ⟨hc, hcache⟩ | ⟨place, hbp, hhas, hc, hcache⟩
    · apply ih
      · intro k hk
        rw [hcache]
        exact hmono k hk
      · intro q hq
        rw [hc] at hq
        simp only [List.append_nil] at hq
        exact hcalls q hq
    · apply ih
      · intro k hk
        rw [hcache]
        exact cacheHas_append _ _ _ (hmono k hk)
      · intro q hq
        rw [hc] at hq
        rcases List.mem_append.mp hq with hq1 | hq2
        · exact hcalls q hq1
        · rcases List.mem_singleton.mp hq2 with rfl
          by_contra hcon
          have : cacheHas cache0 (geoCacheKey q) = true := by
            cases hcc : cacheHas cache0 (geoCacheKey q)
            · exact absurd hcc hcon
            · rfl
          exact absurd (hmono _ this) (by simp [hhas])

/-- C9 (amended: the stored coordinates must be non-null and non-zero —
JS truthiness).  A candidate whose stored record has truthy coordinates
and is not manual is served from the store with no geocoder call; and
over a whole run, every geocoder call is for a birth-place key absent
from the starting cache — a key already cached (even with an explicit
not-found) is never geocoded again. -/
theorem enrichWithCoordinates_skip (existingMap : ExistingMap)
    (geocoder : String → Option (Rat × Rat)) (m : DetailedMember)
    (cache : GeoCache) (e : Person) (la ln : Rat)
    (hm : mapGet existingMap m.pageid = some e)
    (hla : e.lat = some la) (hla0 : la ≠ 0)
    (hln : e.lng = some ln) (hln0 : ln ≠ 0)
    (hman : e.isManual = false) :
    enrichStep existingMap geocoder m cache =
      (⟨m, some la, some ln⟩, cache, []) ∧
    (∀ members cache0 place,
      place ∈ (enrichWithCoordinates existingMap geocoder
        members cache0).2.2 →
      cacheHas cache0 (geoCacheKey place) = false) := by
  constructor
  · unfold enrichStep
    rw [hm]
    show (if (truthyNum e.lat && truthyNum e.lng && !e.isManual) = true then
        (({ member := m, lat := e.lat, lng := e.lng } : EnrichedMember),
          cache, ([] : List String))
      else enrichStepGeocode geocoder m cache) = _
    rw [if_pos (by simp [truthyNum, hla, hln, hla0, hln0, hman]), hla, hln]
  · intro members cache0 place hp
    have h := enrichFold_invariant existingMap geocoder members
      ([], cache0, []) cache0 (fun k hk => hk) (by simp)
    exact h.2 place hp

/-- C9 counterexample to the claim as stated: a stored record with
non-null coordinates `lat = 0, lng = 30` and `isManual = false` — yet
the stage calls the geocoder for its candidate, because the JS
truthiness check `existing.lat && existing.lng` rejects the number 0. -/
theorem enrichWithCoordinates_zero_lat_cex :
    cex9person.lat = some 0 ∧ cex9person.lng = some 30 ∧
    cex9person.isManual = false ∧
    mapGet cex9map cex9member.pageid = some cex9person ∧
    (enrichWithCoordinates cex9map cex9geo [cex9member] []).2.2 =
      ["Lviv"] := by decide

/-- Witness: `enrichWithCoordinates_skip` on a record with coordinates
(49, 24) and on a run whose cache was pre-warmed with "kyiv" (so the
"Kyiv" candidate causes no geocoder call). -/
theorem enrichWithCoordinates_skip_witness :
    enrichStep w9map cex9geo cex9member [] =
      (⟨cex9member, some 49, some 24⟩, [], []) ∧
    (∀ place ∈ (enrichWithCoordinates w9map cex9geo
        [w9memberCached] w9cache).2.2,
      cacheHas w9cache (geoCacheKey place) = false) := by
  have h := enrichWithCoordinates_skip w9map cex9geo cex9member [] w9person
    49 24 (by decide) (by decide) (by decide) (by decide) (by decide)
    (by decide)
  exact ⟨h.1, fun place hp => h.2 [w9memberCached] w9cache place hp⟩

/-! ## C10 — approving a proposed edit -/

/-- The slug hook touches only the slug column. -/
theorem generateSlugHook_fields (x : Person) :
    (generateSlugHook x).id = x.id ∧ (generateSlugHook x).name = x.name ∧
    (generateSlugHook x).summary = x.summary ∧
    (generateSlugHook x).birthDate = x.birthDate ∧
    (generateSlugHook x).birthPlace = x.birthPlace ∧
    (generateSlugHook x).birthYear = x.birthYear ∧
    (generateSlugHook x).lat = x.lat ∧ (generateSlugHook x).lng = x.lng ∧
    (generateSlugHook x).imageUrl = x.imageUrl ∧
    (generateSlugHook x).category = x.category ∧
    (generateSlugHook x).isManual = x.isManual := by
  unfold generateSlugHook
  split <;> exact ⟨rfl, rfl, rfl, rfl, rfl, rfl, rfl, rfl, rfl, rfl, rfl⟩

/-- A manual match makes `buildPersonPayload` skip. -/
theorem buildPersonPayload_manual (data : WikiPerson) (m : ExistingMap)
    (q : Person) (hm : mapGet m data.pageid = some q)
    (hq : q.isManual = true) : buildPersonPayload data m = none := by
  unfold buildPersonPayload
  rw [hm]
  show (if q.isManual = true then none
        else some (mkPayload data (some q), some q.id)) = none
  rw [if_pos hq]

/-- Replacing precisely the rows with a given id keeps `find?` at that id
pointed at the (constant) replacement. -/
theorem find?_map_replace (l : List Person) (pid : Nat) (u : Person)
    (hu : u.id = pid) (p : Person)
    (hfind : l.find? (fun q => q.id == pid) = some p) :
    (l.map (fun q => if q.id = pid then u else q)).find?
      (fun q => q.id == pid) = some u := by
  induction l with
  | nil => simp at hfind
  | cons a rest ih =>
    by_cases ha : a.id = pid
    · simp only [List.map_cons, if_pos ha]
      rw [List.find?_cons_of_pos _ (by simp [hu])]
    · simp only [List.map_cons, if_neg ha]
      rw [List.find?_cons_of_neg _ (by simp [ha])] at hfind ⊢
      exact ih hfind

/-- Applying an id-preserving rewrite to exactly the rows with a given id
moves `find?` at that id to the rewritten record. -/
theorem find?_map_idpres (l : List Person) (pid : Nat) (f : Person → Person)
    (hf : ∀ x, (f x).id = x.id) (p : Person)
    (hfind : l.find? (fun q => q.id == pid) = some p) :
    (l.map (fun q => if q.id = pid then f q else q)).find?
      (fun q => q.id == pid) = some (f p) := by
  induction l with
  | nil => simp at hfind
  | cons a rest ih =>
    by_cases ha : a.id = pid
    · rw [List.find?_cons_of_pos _ (by simp [ha])] at hfind
      cases hfind
      simp only [List.map_cons, if_pos ha]
      rw [List.find?_cons_of_pos _ (by simp [hf p, ha])]
    · simp only [List.map_cons, if_neg ha]
      rw [List.find?_cons_of_neg _ (by simp [ha])] at hfind ⊢
      exact ih hfind

/-- C10.  Approving an edit updates the person record with every changed
field's new value, forces `isManual = true` (even when the edit tried to
set it false), and thereafter `buildPersonPayload` returns `null` for any
candidate matching that record — every automated pipeline save skips it. -/
theorem approve_spec (db : DB) (pid : Nat) (ch : ProposedChanges)
    (p : Person)
    (hfind : db.persons.find? (fun q => q.id == pid) = some p) :
    ∃ q, (approve db pid ch).persons.find? (fun x => x.id == pid) = some q ∧
      q.isManual = true ∧
      (∀ v, ch.nameC = some v → q.name = v) ∧
      (∀ v, ch.summaryC = some v → q.summary = v) ∧
      (∀ v, ch.birthDateC = some v → q.birthDate = v) ∧
      (∀ v, ch.birthPlaceC = some v → q.birthPlace = v) ∧
      (∀ v, ch.birthYearC = some v → q.birthYear = v) ∧
      (∀ v, ch.latC = some v → q.lat = v) ∧
      (∀ v, ch.lngC = some v → q.lng = v) ∧
      (∀ v, ch.imageUrlC = some v → q.imageUrl = v) ∧
      (∀ v, ch.categoryC = some v → q.category = v) ∧
      (∀ data m, mapGet m data.pageid = some q →
        buildPersonPayload data m = none) := by
  have hpid : p.id = pid := by
    have := List.find?_some hfind
    simpa using this
  unfold approve
  rw [hfind]
  dsimp only
  have hfields := generateSlugHook_fields
    { applyChanges p ch with isManual := true }
  set u := generateSlugHook { applyChanges p ch with isManual := true }
    with hu
  have huid : u.id = pid := by
    rw [hfields.1]
    exact hpid
  have hgoals : ∀ q : Person,
      q.isManual = u.isManual → q.name = u.name → q.summary = u.summary →
      q.birthDate = u.birthDate → q.birthPlace = u.birthPlace →
      q.birthYear = u.birthYear → q.lat = u.lat → q.lng = u.lng →
      q.imageUrl = u.imageUrl → q.category = u.category →
      (q.isManual = true ∧
      (∀ v, ch.nameC = some v → q.name = v) ∧
      (∀ v, ch.summaryC = some v → q.summary = v) ∧
      (∀ v, ch.birthDateC = some v → q.birthDate = v) ∧
      (∀ v, ch.birthPlaceC = some v → q.birthPlace = v) ∧
      (∀ v, ch.birthYearC = some v → q.birthYear = v) ∧
      (∀ v, ch.latC = some v → q.lat = v) ∧
      (∀ v, ch.lngC = some v → q.lng = v) ∧
      (∀ v, ch.imageUrlC = some v → q.imageUrl = v) ∧
      (∀ v, ch.categoryC = some v → q.category = v) ∧
      (∀ data m, mapGet m data.pageid = some q →
        buildPersonPayload data m = none)) := by
    intro q h1 h2 h3 h4 h5 h6 h7 h8 h9 h10
    have hman : q.isManual = true := by
      rw [h1, hfields.2.2.2.2.2.2.2.2.2.2]
    refine ⟨hman, ?_, ?_, ?_, ?_, ?_, ?_, ?_, ?_, ?_, ?_⟩
    · intro v hv
      rw [h2, hfields.2.1]
      simp [applyChanges, hv]
    · intro v hv
      rw [h3, hfields.2.2.1]
      simp [applyChanges, hv]
    · intro v hv
      rw [h4, hfields.2.2.2.1]
      simp [applyChanges, hv]
    · intro v hv
      rw [h5, hfields.2.2.2.2.1]
      simp [applyChanges, hv]
    · intro v hv
      rw [h6, hfields.2.2.2.2.2.1]
      simp [applyChanges, hv]
    · intro v hv
      rw [h7, hfields.2.2.2.2.2.2.1]
      simp [applyChanges, hv]
    · intro v hv
      rw [h8, hfields.2.2.2.2.2.2.2.1]
      simp [applyChanges, hv]
    · intro v hv
      rw [h9, hfields.2.2.2.2.2.2.2.2.1]
      simp [applyChanges, hv]
    · intro v hv
      rw [h10, hfields.2.2.2.2.2.2.2.2.2.1]
      simp [applyChanges, hv]
    · intro data m hm
      exact buildPersonPayload_manual data m q hm hman
  have hdb1 : (db.persons.map
      (fun q => if q.id = pid then u else q)).find?
      (fun x => x.id == pid) = some u :=
    find?_map_replace db.persons pid u huid p hfind
  split
  · unfold setGeo
    dsimp only
    rw [hpid]
    refine ⟨{ u with birthLocation := some ((approveLng ch u).getD 0, (approveLat ch u).getD 0) },
      find?_map_idpres (db.persons.map
        (fun q => if q.id = pid then u else q)) pid
      (fun x => { x with birthLocation := some ((approveLng ch u).getD 0, (approveLat ch u).getD 0) })
      (fun x => rfl) u hdb1,
      hgoals _ rfl rfl rfl rfl rfl rfl rfl rfl rfl rfl⟩
  · exact ⟨u, hdb1, hgoals u rfl rfl rfl rfl rfl rfl rfl rfl rfl rfl⟩

/-- Witness: `approve_spec` on a concrete edit that renames the person,
sets a birth year and coordinates, and vainly tries `isManual := false`. -/
theorem approve_spec_witness :
    ∃ q, (approve w10db 5 w10changes).persons.find?
        (fun x => x.id == 5) = some q ∧
      q.isManual = true ∧ q.name = "Edited Name" ∧
      q.birthYear = some 1900 ∧ q.lat = some 48 ∧
      (∀ data m, mapGet m data.pageid = some q →
        buildPersonPayload data m = none) := by
  obtain ⟨q, h1, h2, hname, hsum, hbd, hbp, hby, hlat, hlng, himg, hcat, h12⟩ :=
    approve_spec w10db 5 w10changes w10person (by decide)
  exact ⟨q, h1, h2, hname _ rfl, hby _ rfl, hlat _ rfl, h12⟩

/-! ## C1 — manual records are never touched by batchSavePersons -/

/-- An id-targeted, id-preserving rewrite of rows with one id leaves the
rows with any other id untouched. -/
theorem filter_map_other_id (l : List Person) (id rid : Nat)
    (f : Person → Person) (hf : ∀ x, (f x).id = x.id) (hne : id ≠ rid) :
    (l.map (fun p => if p.id = id then f p else p)).filter
      (fun p => p.id == rid) = l.filter (fun p => p.id == rid) := by
  induction l with
  | nil => rfl
  | cons a rest ih =>
    simp only [List.map_cons, List.filter_cons]
    by_cases ha : a.id = id
    · rw [if_pos ha]
      have h1 : ((f a).id == rid) = false := by
        rw [hf a]
        simp [ha, hne]
      have h2 : (a.id == rid) = false := by simp [ha, hne]
      simp only [h1, Bool.false_eq_true, if_false, h2, ih]
    · rw [if_neg ha]
      by_cases hr : (a.id == rid) = true
      · simp only [hr, if_true, ih]
      · simp only [Bool.not_eq_true] at hr
        simp only [hr, Bool.false_eq_true, if_false, ih]

/-- Id-preserving rewrites keep every row id below the same bound. -/
theorem fresh_of_idpres (l : List Person) (n : Nat) (g : Person → Person)
    (hg : ∀ x, (g x).id = x.id) (h : ∀ p ∈ l, p.id < n) :
    ∀ p ∈ l.map g, p.id < n := by
  intro p hp
  obtain ⟨q, hq, rfl⟩ := List.mem_map.mp hp
  rw [hg q]
  exact h q hq

theorem mapGet_mem (m : ExistingMap) (k : Int) (e : Person)
    (h : mapGet m k = some e) : ∃ en ∈ m, en.2 = e := by
  unfold mapGet at h
  split at h
  · next en heq =>
    cases h
    exact ⟨en, List.mem_of_find?_eq_some heq, rfl⟩
  · exact absurd h (by simp)

/-- A payload carrying an `existingId` always comes from a non-manual
matched record bearing that id. -/
theorem buildPersonPayload_existingId (data : WikiPerson) (m : ExistingMap)
    (pl : PersonPayload) (eid : Nat)
    (h : buildPersonPayload data m = some (pl, some eid)) :
    ∃ e, mapGet m data.pageid = some e ∧ e.isManual = false ∧ e.id = eid := by
  unfold buildPersonPayload at h
  split at h
  · next e heq =>
    split at h
    · exact absurd h (by simp)
    · next hman =>
      cases h
      exact ⟨e, heq, by simpa using hman, rfl⟩
  · simp at h

/-- Every update op produced by the prepare pass targets the id of some
non-manual map entry — never a row whose map entries are all manual. -/
theorem prepareOps_ops_safe (m : ExistingMap) (rid : Nat)
    (hmap : ∀ en ∈ m, en.2.id = rid → en.2.isManual = true)
    (batch : List WikiPerson) :
    ∀ op ∈ (prepareOps batch m).2.1, op.opId ≠ rid := by
  unfold prepareOps
  suffices haux : ∀ (bs : List WikiPerson)
      (acc : List PersonPayload × List UpdateOp × List NewCoord),
      (∀ op ∈ acc.2.1, op.opId ≠ rid) →
      ∀ op ∈ (bs.foldl (fun acc person =>
        match buildPersonPayload person m with
        | none => acc
        | some (pl, some existingId) =>
          (acc.1, acc.2.1 ++ [⟨existingId, pl, person.lat, person.lng⟩],
           acc.2.2)
        | some (pl, none) =>
          let newPayloads := acc.1 ++ [pl]
          let coords :=
            if truthyNum person.lat && truthyNum person.lng then
              acc.2.2 ++ [⟨newPayloads.length - 1,
                           person.lat.getD 0, person.lng.getD 0⟩]
            else acc.2.2
          (newPayloads, acc.2.1, coords)) acc).2.1, op.opId ≠ rid by
    exact haux batch ([], [], []) (by simp)
  intro bs
  induction bs with
  | nil =>
    intro acc hacc
    simpa using hacc
  | cons person rest ih =>
    intro acc hacc
    rw [List.foldl_cons]
    apply ih
    rcases hb : buildPersonPayload person m with _ | ⟨pl, _ | eid⟩
    · simp only [hb]
      exact hacc
    · simp only [hb]
      exact hacc
    · simp only [hb]
      intro op hop
      rcases List.mem_append.mp hop with hop1 | hop2
      · exact hacc op hop1
      · rcases List.mem_singleton.mp hop2 with rfl
        obtain ⟨e, hm, hman, heid⟩ := buildPersonPayload_existingId
          person m pl eid hb
        obtain ⟨en, henm, rfl⟩ := mapGet_mem m person.pageid e hm
        intro hc
        have hc2 : eid = rid := hc
        have := hmap en henm (heid.trans hc2)
        rw [this] at hman
        exact absurd hman (by simp)

/-- `updatePerson` never changes rows with another id, row ids, or the
fresh-id counter. -/
theorem updatePerson_frame (db : DB) (id : Nat) (pl : PersonPayload)
    (rid : Nat) (hne : id ≠ rid) :
    (updatePerson db id pl).persons.filter (fun p => p.id == rid) =
      db.persons.filter (fun p => p.id == rid) ∧
    (updatePerson db id pl).nextId = db.nextId ∧
    (∀ n, (∀ p ∈ db.persons, p.id < n) →
      ∀ p ∈ (updatePerson db id pl).persons, p.id < n) := by
  refine ⟨?_, rfl, ?_⟩
  · exact filter_map_other_id db.persons id rid _
      (fun x => by by_cases hx : x.id = id <;> simp [hx, applyPayload]) hne
  · intro n h
    exact fresh_of_idpres db.persons n _
      (fun x => by by_cases hx : x.id = id <;> simp [hx, applyPayload]) h

/-- Same frame facts for the raw geometry update. -/
theorem setGeo_frame (db : DB) (id : Nat) (lat lng : Rat) (rid : Nat)
    (hne : id ≠ rid) :
    (setGeo db id lat lng).persons.filter (fun p => p.id == rid) =
      db.persons.filter (fun p => p.id == rid) ∧
    (setGeo db id lat lng).nextId = db.nextId ∧
    (∀ n, (∀ p ∈ db.persons, p.id < n) →
      ∀ p ∈ (setGeo db id lat lng).persons, p.id < n) := by
  refine ⟨?_, rfl, ?_⟩
  · exact filter_map_other_id db.persons id rid _
      (fun x => by by_cases hx : x.id = id <;> simp [hx]) hne
  · intro n h
    exact fresh_of_idpres db.persons n _
      (fun x => by by_cases hx : x.id = id <;> simp [hx]) h

theorem applyOneUpdate_frame (db : DB) (op : UpdateOp) (rid : Nat)
    (hne : op.opId ≠ rid) :
    (applyOneUpdate db op).persons.filter (fun p => p.id == rid) =
      db.persons.filter (fun p => p.id == rid) ∧
    (applyOneUpdate db op).nextId = db.nextId ∧
    (∀ n, (∀ p ∈ db.persons, p.id < n) →
      ∀ p ∈ (applyOneUpdate db op).persons, p.id < n) := by
  unfold applyOneUpdate
  dsimp only
  split
  · obtain ⟨a1, a2, a3⟩ := updatePerson_frame db op.opId op.payload rid hne
    obtain ⟨b1, b2, b3⟩ := setGeo_frame (updatePerson db op.opId op.payload)
      op.opId (op.lat.getD 0) (op.lng.getD 0) rid hne
    exact ⟨b1.trans a1, b2.trans a2, fun n h => b3 n (a3 n h)⟩
  · exact updatePerson_frame db op.opId op.payload rid hne

theorem applyUpdateOps_frame (rid : Nat) :
    ∀ (ops : List UpdateOp) (db : DB), (∀ op ∈ ops, op.opId ≠ rid) →
    (applyUpdateOps db ops).persons.filter (fun p => p.id == rid) =
      db.persons.filter (fun p => p.id == rid) ∧
    (applyUpdateOps db ops).nextId = db.nextId ∧
    (∀ n, (∀ p ∈ db.persons, p.id < n) →
      ∀ p ∈ (applyUpdateOps db ops).persons, p.id < n) := by
  intro ops
  induction ops with
  | nil =>
    intro db _
    exact ⟨rfl, rfl, fun n h => h⟩
  | cons op rest ih =>
    intro db hops
    have hstep := applyOneUpdate_frame db op rid
      (hops op (List.mem_cons_self op rest))
    have hrest := ih (applyOneUpdate db op)
      (fun o ho => hops o (List.mem_cons_of_mem op ho))
    have hrw : applyUpdateOps db (op :: rest) =
        applyUpdateOps (applyOneUpdate db op) rest := rfl
    rw [hrw]
    exact ⟨hrest.1.trans hstep.1, hrest.2.1.trans hstep.2.1,
      fun n h => hrest.2.2 n (hstep.2.2 n h)⟩

theorem applyGeoUpdates_frame (rid : Nat) :
    ∀ (gs : List (Nat × Rat × Rat)) (db : DB), (∀ g ∈ gs, g.1 ≠ rid) →
    (applyGeoUpdates db gs).persons.filter (fun p => p.id == rid) =
      db.persons.filter (fun p => p.id == rid) ∧
    (applyGeoUpdates db gs).nextId = db.nextId ∧
    (∀ n, (∀ p ∈ db.persons, p.id < n) →
      ∀ p ∈ (applyGeoUpdates db gs).persons, p.id < n) := by
  intro gs
  induction gs with
  | nil =>
    intro db _
    exact ⟨rfl, rfl, fun n h => h⟩
  | cons g rest ih =>
    intro db hgs
    have hstep := setGeo_frame db g.1 g.2.1 g.2.2 rid
      (hgs g (List.mem_cons_self g rest))
    have hrest := ih (setGeo db g.1 g.2.1 g.2.2)
      (fun x hx => hgs x (List.mem_cons_of_mem g hx))
    have hrw : applyGeoUpdates db (g :: rest) =
        applyGeoUpdates (setGeo db g.1 g.2.1 g.2.2) rest := rfl
    rw [hrw]
    exact ⟨hrest.1.trans hstep.1, hrest.2.1.trans hstep.2.1,
      fun n h => hrest.2.2 n (hstep.2.2 n h)⟩

theorem insertPayloads_facts (db : DB) (pls : List PersonPayload) (rid : Nat)
    (hrid : rid < db.nextId)
    (hfresh : ∀ p ∈ db.persons, p.id < db.nextId) :
    (insertPayloads db pls).1.persons.filter (fun p => p.id == rid) =
      db.persons.filter (fun p => p.id == rid) ∧
    (∀ p ∈ (insertPayloads db pls).2, db.nextId ≤ p.id) ∧
    (∀ p ∈ (insertPayloads db pls).1.persons,
      p.id < (insertPayloads db pls).1.nextId) ∧
    rid < (insertPayloads db pls).1.nextId := by
  have hsaved : ∀ p ∈ (insertPayloads db pls).2,
      db.nextId ≤ p.id ∧ p.id < db.nextId + pls.length := by
    intro p hp
    unfold insertPayloads at hp
    dsimp only at hp
    obtain ⟨ip, hip, rfl⟩ := List.mem_map.mp hp
    have hid : (generateSlugHook
        (personOfPayload (db.nextId + ip.1) ip.2)).id = db.nextId + ip.1 :=
      (generateSlugHook_fields _).1
    rw [hid]
    have hi := List.mem_range.mp (List.mem_zip hip).1
    omega
  refine ⟨?_, fun p hp => (hsaved p hp).1, ?_, ?_⟩
  · show (db.persons ++ (insertPayloads db pls).2).filter
        (fun p => p.id == rid) = _
    rw [List.filter_append]
    have hnil : (insertPayloads db pls).2.filter (fun p => p.id == rid) = [] := by
      rw [List.filter_eq_nil_iff]
      intro p hp
      have := (hsaved p hp).1
      simp only [beq_iff_eq]
      omega
    rw [hnil, List.append_nil]
  · intro p hp
    have hnext : (insertPayloads db pls).1.nextId =
        db.nextId + pls.length := rfl
    rw [hnext]
    have hp2 : p ∈ db.persons ++ (insertPayloads db pls).2 := hp
    rcases List.mem_append.mp hp2 with h1 | h2
    · have := hfresh p h1
      omega
    · exact (hsaved p h2).2
  · show rid < db.nextId + pls.length
    omega

/-- One chunk of the save loop leaves the rows with id `rid` untouched
and preserves id freshness, provided every map entry bearing `rid` is
manual. -/
theorem processBatch_frame (m : ExistingMap) (rid : Nat)
    (hmap : ∀ en ∈ m, en.2.id = rid → en.2.isManual = true)
    (batch : List WikiPerson) (db : DB)
    (hfresh : ∀ p ∈ db.persons, p.id < db.nextId)
    (hrid : rid < db.nextId) :
    (processBatch m db batch).1.persons.filter (fun p => p.id == rid) =
      db.persons.filter (fun p => p.id == rid) ∧
    (∀ p ∈ (processBatch m db batch).1.persons,
      p.id < (processBatch m db batch).1.nextId) ∧
    rid < (processBatch m db batch).1.nextId := by
  have hops := prepareOps_ops_safe m rid hmap batch
  unfold processBatch
  dsimp only
  split
  · next hemp =>
    dsimp only
    have hgeo : geoUpdatesOfNew [] (prepareOps batch m).2.2 = [] := by
      unfold geoUpdatesOfNew
      simp
    rw [hgeo]
    have hga : applyGeoUpdates db [] = db := rfl
    rw [hga]
    obtain ⟨u1, u2, u3⟩ := applyUpdateOps_frame rid (prepareOps batch m).2.1
      db hops
    refine ⟨u1, ?_, ?_⟩
    · intro p hp
      rw [u2]
      exact u3 db.nextId hfresh p hp
    · rw [u2]
      exact hrid
  · next hemp =>
    obtain ⟨i1, i2, i3, i4⟩ := insertPayloads_facts db (prepareOps batch m).1
      rid hrid hfresh
    have hgids : ∀ g ∈ geoUpdatesOfNew (insertPayloads db (prepareOps batch m).1).2
        (prepareOps batch m).2.2, g.1 ≠ rid := by
      intro g hg
      unfold geoUpdatesOfNew at hg
      obtain ⟨c, hc, hgc⟩ := List.mem_filterMap.mp hg
      rcases hget : ((insertPayloads db (prepareOps batch m).1).2).get? c.index
        with _ | p
      · rw [hget] at hgc
        exact absurd hgc (by simp)
      · rw [hget] at hgc
        have hgc2 : g = (p.id, c.lat, c.lng) := by
          simpa using hgc.symm
        have hmem : p ∈ (insertPayloads db (prepareOps batch m).1).2 :=
          List.get?_mem hget
        have := i2 p hmem
        rw [hgc2]
        show p.id ≠ rid
        omega
    obtain ⟨g1, g2, g3⟩ := applyGeoUpdates_frame rid _
      (insertPayloads db (prepareOps batch m).1).1 hgids
    obtain ⟨u1, u2, u3⟩ := applyUpdateOps_frame rid (prepareOps batch m).2.1 _
      hops
    refine ⟨u1.trans (g1.trans i1), ?_, ?_⟩
    · intro p hp
      rw [u2, g2]
      exact u3 _ (g3 _ i3) p hp
    · rw [u2, g2]
      exact i4

/-- The chunked save loop preserves the frame facts. -/
theorem batchSave_fold_frame (m : ExistingMap) (rid : Nat)
    (F : List Person)
    (hmap : ∀ en ∈ m, en.2.id = rid → en.2.isManual = true) :
    ∀ (chunks : List (List WikiPerson)) (acc : DB × Nat),
    acc.1.persons.filter (fun p => p.id == rid) = F →
    (∀ p ∈ acc.1.persons, p.id < acc.1.nextId) →
    rid < acc.1.nextId →
    (chunks.foldl (fun acc batch =>
      let r := processBatch m acc.1 batch
      (r.1, acc.2 + r.2)) acc).1.persons.filter (fun p => p.id == rid) = F := by
  intro chunks
  induction chunks with
  | nil =>
    intro acc h1 _ _
    exact h1
  | cons batch rest ih =>
    intro acc h1 h2 h3
    rw [List.foldl_cons]
    obtain ⟨p1, p2, p3⟩ := processBatch_frame m rid hmap batch acc.1 h2 h3
    exact ih _ (p1.trans h1) p2 p3

/-- C1.  A candidate whose matching stored record is manual produces no
payload at all (`buildPersonPayload` yields null), and `batchSavePersons`
leaves every manual stored record byte-identical: the rows with its id
are exactly the pre-run rows, and the record itself is still present.
The map-consistency hypothesis states that every pre-loaded map entry
bearing the record's id is manual (the map is keyed by wiki page id over
a store with unique ids, so all such entries are the record itself). -/
theorem batchSavePersons_skips_manual (people : List WikiPerson)
    (m : ExistingMap) (db : DB) (r : Person)
    (hmem : r ∈ db.persons) (hman : r.isManual = true)
    (hmap : ∀ en ∈ m, en.2.id = r.id → en.2.isManual = true)
    (hfresh : ∀ p ∈ db.persons, p.id < db.nextId) :
    (∀ data : WikiPerson, mapGet m data.pageid = some r →
      buildPersonPayload data m = none) ∧
    (batchSavePersons people m db).1.persons.filter
      (fun p => p.id == r.id) = db.persons.filter (fun p => p.id == r.id) ∧
    r ∈ (batchSavePersons people m db).1.persons := by
  have hframe : (batchSavePersons people m db).1.persons.filter
      (fun p => p.id == r.id) = db.persons.filter (fun p => p.id == r.id) := by
    unfold batchSavePersons
    exact batchSave_fold_frame m r.id _ hmap (chunksOf50 people) (db, 0)
      rfl hfresh (hfresh r hmem)
  refine ⟨?_, hframe, ?_⟩
  · intro data hd
    exact buildPersonPayload_manual data m r hd hman
  · have hr : r ∈ db.persons.filter (fun p => p.id == r.id) :=
      List.mem_filter.mpr ⟨hmem, by simp⟩
    rw [← hframe] at hr
    exact List.mem_of_mem_filter hr

/-- Witness: `batchSavePersons_skips_manual` on a store holding one
curated record and a conflicting fresh candidate for its page id. -/
theorem batchSavePersons_skips_manual_witness :
    buildPersonPayload w1data w1map = none ∧
    (batchSavePersons [w1data] w1map w1db).1.persons.filter
      (fun p => p.id == w1person.id) =
      w1db.persons.filter (fun p => p.id == w1person.id) ∧
    w1person ∈ (batchSavePersons [w1data] w1map w1db).1.persons := by
  obtain ⟨h1, h2, h3⟩ := batchSavePersons_skips_manual [w1data] w1map w1db
    w1person (by decide) (by decide) (by decide) (by decide)
  exact ⟨h1 w1data (by decide), h2, h3⟩

/-! ## C8 — toSlug character set -/

theorem charOfNat_toNat {n : Nat} (h : n < 0xD800) :
    (Char.ofNat n).toNat = n := by
  have hv : n.isValidChar := Or.inl h
  simp [Char.ofNat, hv]
  rfl

theorem toLower_toNat_upper (c : Char) (h : 65 ≤ c.toNat ∧ c.toNat ≤ 90) :
    (Char.toLower c).toNat = c.toNat + 32 := by
  unfold Char.toLower
  rw [if_pos ⟨h.1, h.2⟩]
  exact charOfNat_toNat (by omega)

theorem toLower_eq_self (c : Char) (h : ¬(65 ≤ c.toNat ∧ c.toNat ≤ 90)) :
    Char.toLower c = c := by
  unfold Char.toLower
  rw [if_neg (by omega)]

theorem jsToLower_eq_self (c : Char)
    (h1 : ¬(0x400 ≤ c.toNat ∧ c.toNat ≤ 0x42F)) (h2 : c.toNat ≠ 0x490)
    (h3 : ¬(65 ≤ c.toNat ∧ c.toNat ≤ 90)) : jsToLower c = c := by
  unfold jsToLower
  rw [if_neg (by omega), if_neg (by omega), if_neg (by omega)]
  exact toLower_eq_self c h3

/-- The modelled JS lowering is idempotent: lowered characters are fixed
points (there are no uppercase characters in its image). -/
theorem jsToLower_idem (c : Char) : jsToLower (jsToLower c) = jsToLower c := by
  by_cases h1 : 0x400 ≤ c.toNat ∧ c.toNat ≤ 0x40F
  · have hv : jsToLower c = Char.ofNat (c.toNat + 0x50) := by
      unfold jsToLower
      rw [if_pos h1]
    have ht : (jsToLower c).toNat = c.toNat + 0x50 := by
      rw [hv]
      exact charOfNat_toNat (by omega)
    exact jsToLower_eq_self _ (by omega) (by omega) (by omega)
  · by_cases h2 : 0x410 ≤ c.toNat ∧ c.toNat ≤ 0x42F
    · have hv : jsToLower c = Char.ofNat (c.toNat + 0x20) := by
        unfold jsToLower
        rw [if_neg h1, if_pos h2]
      have ht : (jsToLower c).toNat = c.toNat + 0x20 := by
        rw [hv]
        exact charOfNat_toNat (by omega)
      exact jsToLower_eq_self _ (by omega) (by omega) (by omega)
    · by_cases h3 : c.toNat = 0x490
      · have hv : jsToLower c = Char.ofNat 0x491 := by
          unfold jsToLower
          rw [if_neg h1, if_neg h2, if_pos h3]
        have ht : (jsToLower c).toNat = 0x491 := by
          rw [hv]
          exact charOfNat_toNat (by omega)
        exact jsToLower_eq_self _ (by omega) (by omega) (by omega)
      · have hv : jsToLower c = Char.toLower c := by
          unfold jsToLower
          rw [if_neg h1, if_neg h2, if_neg h3]
        by_cases h4 : 65 ≤ c.toNat ∧ c.toNat ≤ 90
        · have ht : (jsToLower c).toNat = c.toNat + 32 := by
            rw [hv]
            exact toLower_toNat_upper c h4
          exact jsToLower_eq_self _ (by omega) (by omega) (by omega)
        · have hv2 : jsToLower c = c := by
            rw [hv]
            exact toLower_eq_self c h4
          rw [hv2]
          rw [show jsToLower c = c from hv2]

theorem replaceSpaceRunsAux_mem (l : List Char) :
    ∀ b, ∀ c ∈ replaceSpaceRunsAux b l,
      c = '-' ∨ (c ∈ l ∧ jsIsSpace c = false) := by
  induction l with
  | nil =>
    intro b c hc
    simp [replaceSpaceRunsAux] at hc
  | cons x rest ih =>
    intro b c hc
    unfold replaceSpaceRunsAux at hc
    by_cases hx : jsIsSpace x = true
    · rw [if_pos hx] at hc
      have hc2 : c = '-' ∨ c ∈ replaceSpaceRunsAux true rest := by
        rcases hb : b with _ | _
        · rw [hb] at hc
          simp only [Bool.false_eq_true, if_false] at hc
          rcases List.mem_cons.mp hc with h | h
          · exact Or.inl h
          · exact Or.inr h
        · rw [hb] at hc
          simp only [if_true] at hc
          exact Or.inr hc
      rcases hc2 with h | h
      · exact Or.inl h
      · rcases ih true c h with h2 | ⟨h2, h3⟩
        · exact Or.inl h2
        · exact Or.inr ⟨List.mem_cons_of_mem x h2, h3⟩
    · rw [if_neg hx] at hc
      rcases List.mem_cons.mp hc with h | h
      · subst h
        exact Or.inr ⟨List.mem_cons_self c rest, by simpa using hx⟩
      · rcases ih false c h with h2 | ⟨h2, h3⟩
        · exact Or.inl h2
        · exact Or.inr ⟨List.mem_cons_of_mem x h2, h3⟩

theorem collapseHyphenRunsAux_mem (l : List Char) :
    ∀ b, ∀ c ∈ collapseHyphenRunsAux b l, c ∈ l := by
  induction l with
  | nil =>
    intro b c hc
    simp [collapseHyphenRunsAux] at hc
  | cons x rest ih =>
    intro b c hc
    unfold collapseHyphenRunsAux at hc
    by_cases hx : x = '-'
    · rw [if_pos (by simp [hx])] at hc
      rcases hb : b with _ | _
      · rw [hb] at hc
        simp only [Bool.false_eq_true, if_false] at hc
        rcases List.mem_cons.mp hc with h | h
        · subst h
          simp [hx]
        · exact List.mem_cons_of_mem x (ih true c h)
      · rw [hb] at hc
        simp only [if_true] at hc
        exact List.mem_cons_of_mem x (ih true c hc)
    · rw [if_neg (by simp [hx])] at hc
      rcases List.mem_cons.mp hc with h | h
      · subst h
        exact List.mem_cons_self c rest
      · exact List.mem_cons_of_mem x (ih false c h)

theorem jsTrim_isInfix (l : List Char) : jsTrim l <:+: l := by
  have h1 : jsTrim l <+: l.dropWhile jsIsSpace :=
    List.rdropWhile_prefix jsIsSpace (l.dropWhile jsIsSpace)
  have h2 : l.dropWhile jsIsSpace <:+ l := l.dropWhile_suffix jsIsSpace
  exact h1.isInfix.trans h2.isInfix

theorem jsTrim_mem (l : List Char) (c : Char) (hc : c ∈ jsTrim l) : c ∈ l :=
  (jsTrim_isInfix l).subset hc

/-- The head of the collapsed list under an open run is never a hyphen,
and the collapsed list never contains two adjacent hyphens. -/
theorem collapseHyphenRunsAux_chain (l : List Char) :
    ∀ b, ((collapseHyphenRunsAux true l).head? ≠ some '-') ∧
      (collapseHyphenRunsAux b l).Chain' (fun a c => ¬(a = '-' ∧ c = '-')) := by
  induction l with
  | nil =>
    intro b
    constructor
    · simp [collapseHyphenRunsAux]
    · unfold collapseHyphenRunsAux
      exact List.chain'_nil
  | cons x rest ih =>
    intro b
    by_cases hx : x = '-'
    · subst hx
      constructor
      · show (collapseHyphenRunsAux true ('-' :: rest)).head? ≠ some '-'
        unfold collapseHyphenRunsAux
        rw [if_pos (by simp), if_pos rfl]
        exact (ih true).1
      · unfold collapseHyphenRunsAux
        rw [if_pos (by simp)]
        rcases hb : b with _ | _
        · simp only [Bool.false_eq_true, if_false]
          apply List.chain'_cons'.mpr
          constructor
          · intro y hy
            intro hcon
            apply (ih true).1
            rw [hy]
            exact congrArg some hcon.2
          · exact (ih true).2
        · simp only [if_true]
          exact (ih true).2
    · constructor
      · show (collapseHyphenRunsAux true (x :: rest)).head? ≠ some '-'
        unfold collapseHyphenRunsAux
        rw [if_neg (by simp [hx])]
        simp [hx]
      · unfold collapseHyphenRunsAux
        rw [if_neg (by simp [hx])]
        apply List.chain'_cons'.mpr
        constructor
        · intro y hy hcon
          exact hx hcon.1
        · exact (ih false).2

/-- C8 (amended: no leading/trailing guarantee).  Every character of a
slug is a lowercase letter (a fixed point of the lowering), a digit, or
a hyphen, and no two hyphens are adjacent.  Leading and trailing hyphens
do occur (the final `trim()` removes whitespace only, after whitespace
has already become hyphens). -/
theorem toSlug_charset (s : String) :
    (∀ c ∈ (toSlug s).toList,
      (jsIsLetter c = true ∧ jsToLower c = c) ∨ jsIsNum c = true ∨ c = '-') ∧
    (toSlug s).toList.Chain' (fun a c => ¬(a = '-' ∧ c = '-')) := by
  have hlist : (toSlug s).toList =
      jsTrim (collapseHyphenRuns (replaceSpaceRuns
        ((s.toList.map jsToLower).filter slugKeep))) := rfl
  constructor
  · intro c hc
    rw [hlist] at hc
    have hc1 := jsTrim_mem _ c hc
    have hc2 := collapseHyphenRunsAux_mem _ false c hc1
    rcases replaceSpaceRunsAux_mem _ false c hc2 with h | ⟨h, hsp⟩
    · exact Or.inr (Or.inr h)
    · have hkeep := (List.mem_filter.mp h).2
      have himg := (List.mem_filter.mp h).1
      obtain ⟨c0, _, rfl⟩ := List.mem_map.mp himg
      have : jsIsLetter (jsToLower c0) = true ∨ jsIsNum (jsToLower c0) = true ∨
          jsIsSpace (jsToLower c0) = true ∨ (jsToLower c0 = '-') := by
        simp only [slugKeep, Bool.or_eq_true, decide_eq_true_eq] at hkeep
        tauto
      rcases this with h1 | h2 | h3 | h4
      · exact Or.inl ⟨h1, jsToLower_idem c0⟩
      · exact Or.inr (Or.inl h2)
      · rw [h3] at hsp
        exact absurd hsp (by simp)
      · exact Or.inr (Or.inr h4)
  · rw [hlist]
    exact List.Chain'.infix ((collapseHyphenRunsAux_chain _ false).2)
      (jsTrim_isInfix _)

/-- C8 counterexample to the claim as stated: `toSlug " a "` is `"-a-"`,
with both a leading and a trailing hyphen. -/
theorem toSlug_hyphen_cex :
    toSlug " a " = "-a-" ∧
    (toSlug " a ").toList.head? = some '-' ∧
    (toSlug " a ").toList.getLast? = some '-' := by decide

/-- Witness: `toSlug_charset` at a concrete mixed name. -/
theorem toSlug_charset_witness :
    (∀ c ∈ (toSlug "Ivan Franko 1856").toList,
      (jsIsLetter c = true ∧ jsToLower c = c) ∨ jsIsNum c = true ∨ c = '-') ∧
    (toSlug "Ivan Franko 1856").toList.Chain'
      (fun a c => ¬(a = '-' ∧ c = '-')) :=
  toSlug_charset "Ivan Franko 1856"

end UkrMap